import Mathlib

/-!
Verification of the PLC operation-log audit validator and the mirror store
of the `plc` repository, as a shallow embedding in Lean 4.

The embedding follows `src/remote/plc.rs`, `src/remote/plc/audit.rs`,
`src/mirror/db.rs` and `src/mirror/mod.rs`:

* Timestamps (`chrono::DateTime<Utc>` / `atrium` `Datetime`) are modelled as
  integer nanoseconds since the Unix epoch (`Int`), matching the constant
  `MALLEABILITY_PREVENTED` which the source builds via
  `DateTime::from_timestamp_nanos(1_701_370_214_000_000_000)`.
* CIDs are modelled as abstract values (`Nat`); DIDs as `String`.
* The external cryptographic and codec primitives (DAG-CBOR serialisation
  followed by SHA-256/CID computation, DID derivation, `parse_did_key`
  together with `atrium_crypto::verify::Verifier`) are grouped into a
  record of oracle functions `Ext`.  The validator and the mirror are
  parametrised over `Ext`; every theorem quantifies over the oracles, so
  the results hold for the real primitives in particular.
* Base64url decoding (`base64ct::Base64UrlUnpadded::decode_vec`) is
  implemented concretely: the unpadded base64url alphabet contains no
  padding character, so any input containing a padding character is
  rejected, and an input whose length is 1 mod 4 is rejected.
-/

namespace Plc

/-! ## Data model (`src/remote/plc.rs`, `src/data.rs`) -/

/-- Entry of the `services` map of a `PlcData` (`src/data.rs`). -/
structure Service where
  type : String
  endpoint : String
deriving DecidableEq, Repr

/-- The canonical identity state (`PlcData` in `src/data.rs`).  The Rust
`HashMap` fields are modelled as association lists. -/
structure PlcData where
  rotationKeys : List String
  verificationMethods : List (String × String)
  alsoKnownAs : List String
  services : List (String × Service)
deriving DecidableEq, Repr

/-- The three operation variants (`Operation` in `src/remote/plc.rs`).
The `extra` field of a change operation carries the unknown wire fields
(`extra_fields` in the source), modelled as opaque key/value strings. -/
inductive Operation where
  | change (data : PlcData) (prev : Option Nat) (extra : List (String × String))
  | tombstone (prev : Nat)
  | legacyCreate (signingKey recoveryKey handle service : String)
deriving DecidableEq, Repr

/-- A signed operation (`SignedOperation` in `src/remote/plc.rs`):
the operation content together with its base64url-encoded signature. -/
structure SignedOperation where
  content : Operation
  sig : String
deriving DecidableEq, Repr

/-- A log entry of the audit log (`LogEntry` in `src/remote/plc.rs`). -/
structure LogEntry where
  did : String
  operation : SignedOperation
  cid : Nat
  nullified : Bool
  createdAt : Int
deriving DecidableEq, Repr

/-- External codec/crypto oracles used by the validator and the mirror.
`cidOf` stands for CID-v1(0x71, SHA-256) over the DAG-CBOR signed bytes;
`deriveDid` for `derive_did` over the signed bytes of the genesis
operation; `verify sigAllowMalleable didKey content sigBytes` stands for
`parse_did_key(did_key)` followed by
`Verifier::new(allow_malleable).verify(alg, pk, unsigned_bytes(content), sig)`
succeeding. -/
structure Ext where
  cidOf : SignedOperation → Nat
  deriveDid : SignedOperation → String
  verify : Bool → String → Operation → List Nat → Bool

/-- Rotation keys of a change operation (`ChangeOp::rotation_keys`). -/
def Operation.changeRotationKeys (d : PlcData) : List String := d.rotationKeys

/-- Rotation keys of a legacy create operation
(`LegacyCreateOp::rotation_keys`): recovery key first, then signing key. -/
def Operation.legacyRotationKeys (signingKey recoveryKey : String) : List String :=
  [recoveryKey, signingKey]

/-! ## Constants (`src/remote/plc/audit.rs` lines 15 and 26-27) -/

/-- The 72-hour recovery window (`RECOVERY_WINDOW`), in nanoseconds. -/
def RECOVERY_WINDOW : Int := 72 * 60 * 60 * 1000000000

/-- Time before which a log entry is permitted to have a malleable
signature (`MALLEABILITY_PREVENTED`), in nanoseconds since the epoch:
1_701_370_214_000_000_000 ns, i.e. 2023-11-30T18:50:14Z. -/
def MALLEABILITY_PREVENTED : Int := 1701370214000000000

/-! ## Base64url unpadded decoding (`base64ct::Base64UrlUnpadded`) -/

/-- Value of a character in the base64url alphabet, `none` if the
character is not in the alphabet.  The padding character is not in the
unpadded alphabet. -/
def b64Val (c : Char) : Option Nat :=
  if 65 ≤ c.toNat ∧ c.toNat ≤ 90 then some (c.toNat - 65)
  else if 97 ≤ c.toNat ∧ c.toNat ≤ 122 then some (c.toNat - 97 + 26)
  else if 48 ≤ c.toNat ∧ c.toNat ≤ 57 then some (c.toNat - 48 + 52)
  else if c = Char.ofNat 45 then some 62
  else if c = Char.ofNat 95 then some 63
  else none

/-- Decode a list of base64url character values into bytes.  A final
group of a single character is invalid (length 1 mod 4). -/
def decodeVals : List Nat → Option (List Nat)
  | [] => some []
  | [_] => none
  | [a, b] => some [a * 4 + b / 16]
  | [a, b, c] => some [a * 4 + b / 16, b % 16 * 16 + c / 4]
  | a :: b :: c :: d :: rest => do
      let tail ← decodeVals rest
      pure ((a * 4 + b / 16) :: (b % 16 * 16 + c / 4) :: (c % 4 * 64 + d) :: tail)

/-- Decoding of unpadded base64url
(`base64ct::Base64UrlUnpadded::decode_vec`): every character must be in
the unpadded alphabet and the length must not be 1 mod 4. -/
def base64UrlUnpaddedDecode (s : String) : Option (List Nat) :=
  (s.data.mapM b64Val).bind decodeVals

/-- Strip all trailing padding characters from a signature string
(`str::trim_end_matches` applied with the padding character). -/
def trimEndPad (s : String) : String :=
  String.mk ((s.data.reverse.dropWhile (fun c => c = Char.ofNat 61)).reverse)

/-! ## Nullification (`LogEntry::nullifies`, audit.rs lines 373-398) -/

/-- Whether `e` (with signer authority `signerAuthority`) nullifies the
earlier sibling `earlier` (with signer authority `earlierSignerAuthority`).
Direct translation of `LogEntry::nullifies`. -/
def LogEntry.nullifies (e : LogEntry) (signerAuthority : Option Nat)
    (earlier : LogEntry) (earlierSignerAuthority : Option Nat) : Bool :=
  let submittedInTime := e.createdAt ≤ earlier.createdAt + RECOVERY_WINDOW
  let currentIsHigherAuthority :=
    match signerAuthority, earlierSignerAuthority with
    | some activeAuthority, some earlierAuthority => activeAuthority < earlierAuthority
    | none, _ => false
    | some _, none => true
  submittedInTime && currentIsHigherAuthority

/-! ## Audit errors (`AuditError` in audit.rs) -/

/-- The audit error enumeration (`AuditError` in audit.rs lines 401-418). -/
inductive AuditError where
  | auditLogEmpty
  | entryCidInvalid (cid actual : Nat)
  | entryCreatedBeforePrev (cid prev : Nat)
  | entryDidMismatch (cid : Nat)
  | entryIncorrectlyActive (cid : Nat)
  | entryIncorrectlyNullified (cid : Nat)
  | invalidSignatureEncoding (cid : Nat)
  | genesisOperationInvalidDid (expected actual : String)
  | genesisOperationNotCreate
  | multipleActiveChildren (cid first : Nat)
  | nonGenesisCreate (cid : Nat)
  | operationAfterDeactivation (cid prev : Nat)
  | prevMissing (prev : Nat)
  | prevReferencesFuture (cid prev : Nat)
  | trustViolation (cid : Nat)
deriving DecidableEq, Repr

/-! ## Per-entry validation (`LogEntry::validate_with_prev`) -/

/-- Whether the entry is permitted a malleable signature: its creation
time is strictly before the `MALLEABILITY_PREVENTED` cutoff (the local
`allow_malleable` of `validate_with_prev`). -/
def LogEntry.allowMalleable (e : LogEntry) : Bool :=
  decide (e.createdAt < MALLEABILITY_PREVENTED)

/-- The signature string handed to the base64url decoder: trailing
padding is stripped first exactly when the entry may be malleable
(the local `encoded_sig` of `validate_with_prev`). -/
def LogEntry.encodedSig (e : LogEntry) : String :=
  if e.allowMalleable then trimEndPad e.operation.sig else e.operation.sig

/-- The decoded signature bytes, if the signature decodes
(the local `signature` of `validate_with_prev`). -/
def LogEntry.decodedSig (e : LogEntry) : Option (List Nat) :=
  base64UrlUnpaddedDecode e.encodedSig

/-- The `check_sig` closure of `validate_with_prev`: if the signature
decoded, verify it against the candidate rotation key over the unsigned
bytes; if the signature failed to decode, report success so that no
separate trust error is raised. -/
def LogEntry.checkSig (e : LogEntry) (ext : Ext) (didKey : String) : Bool :=
  match e.decodedSig with
  | some s => ext.verify e.allowMalleable didKey e.operation.content s
  | none => true

/-- First index of `l` satisfying `p`, mirroring Rust
`iter().enumerate().find(p)` restricted to the index. -/
def enumerateFind (p : α → Bool) : List α → Option Nat
  | [] => none
  | a :: l => if p a then some 0 else (enumerateFind p l).map (· + 1)

/-- The rotation keys the signer of `e` is checked against, from the
match over `(self.operation.content, prev)` in `validate_with_prev`:
the entry's own keys for a genesis, the keys of `prev` otherwise, and
`OperationAfterDeactivation` when `prev` is a tombstone.  The two
source arms that are `unreachable!` from `AuditLog::validate` (a
tombstone with no prev, a legacy create with a prev) are given the
error value `TrustViolation` to keep the function total; no theorem
depends on them. -/
def signerKeys (e : LogEntry) (prev : Option LogEntry) : Except AuditError (List String) :=
  match e.operation.content, prev with
  | .change d _ _, none => .ok (Operation.changeRotationKeys d)
  | .legacyCreate sk rk _ _, none => .ok (Operation.legacyRotationKeys sk rk)
  | .change _ _ _, some p =>
      (match p.operation.content with
       | .change d _ _ => .ok (Operation.changeRotationKeys d)
       | .legacyCreate sk rk _ _ => .ok (Operation.legacyRotationKeys sk rk)
       | .tombstone _ => .error (.operationAfterDeactivation e.cid p.cid))
  | .tombstone _, some p =>
      (match p.operation.content with
       | .change d _ _ => .ok (Operation.changeRotationKeys d)
       | .legacyCreate sk rk _ _ => .ok (Operation.legacyRotationKeys sk rk)
       | .tombstone _ => .error (.operationAfterDeactivation e.cid p.cid))
  | .tombstone _, none => .error (.trustViolation e.cid)
  | .legacyCreate _ _ _ _, some _ => .error (.trustViolation e.cid)

/-- Translation of `LogEntry::validate_with_prev` (audit.rs lines
262-371).  Returns the errors raised for this entry (in push order:
signature-encoding error, then trust/deactivation error, then temporal
error) together with the signer authority, `none` when unknown. -/
def LogEntry.validateWithPrev (e : LogEntry) (ext : Ext) (prev : Option LogEntry) :
    List AuditError × Option Nat :=
  let encErrs : List AuditError :=
    match e.decodedSig with
    | some _ => []
    | none => [.invalidSignatureEncoding e.cid]
  let signatureValid : Except AuditError Nat :=
    match signerKeys e prev with
    | .error er => .error er
    | .ok keys =>
        match enumerateFind (e.checkSig ext) keys with
        | some index => .ok index
        | none => .error (.trustViolation e.cid)
  let (trustErrs, signerAuthority) :=
    match signatureValid with
    | .ok index => (([] : List AuditError), some index)
    | .error er => ([er], none)
  let timeErrs : List AuditError :=
    match prev with
    | some p =>
        if e.createdAt < p.createdAt then [.entryCreatedBeforePrev e.cid p.cid] else []
    | none => []
  (encErrs ++ trustErrs ++ timeErrs, signerAuthority)

/-- Translation of `LogEntry::validate_self` (audit.rs lines 235-260):
CID integrity and DID agreement. -/
def LogEntry.validateSelf (e : LogEntry) (ext : Ext) (did : String) : List AuditError :=
  (if e.cid ≠ ext.cidOf e.operation
   then [AuditError.entryCidInvalid e.cid (ext.cidOf e.operation)] else []) ++
  (if e.did ≠ did then [AuditError.entryDidMismatch e.cid] else [])

/-! ## The audit log validator (`AuditLog::validate`) -/

/-- An audit log: the DID it claims to describe and its entries
(`AuditLog` in audit.rs). -/
structure AuditLog where
  did : String
  entries : List LogEntry
deriving DecidableEq, Repr

/-- Genesis-operation check of `AuditLog::validate` (audit.rs lines
44-65): the first entry must be a change with no prev or a legacy
create, and the DID derived from its signed bytes must match. -/
def genesisErrors (ext : Ext) (did : String) (entries : List LogEntry) : List AuditError :=
  match entries.head? with
  | none => [.auditLogEmpty]
  | some e =>
      let didErrs :=
        let actual := ext.deriveDid e.operation
        if actual ≠ did then [AuditError.genesisOperationInvalidDid did actual] else []
      match e.operation.content with
      | .change _ none _ => didErrs
      | .legacyCreate _ _ _ _ => didErrs
      | _ => [.genesisOperationNotCreate]

/-- Node of the active graph: the active child and the pending
nullified children, each with its signer authority (the value type of
`active_graph` in `AuditLog::validate`). -/
structure GraphNode where
  activeChild : Option (LogEntry × Option Nat)
  nullifiedChildren : List (LogEntry × Option Nat)
deriving DecidableEq, Repr

/-- The active graph, keyed by the CID of the parent entry.  The Rust
`HashMap` is modelled as an association list in insertion order; the
order in which the final settlement loop visits the map is kept
explicit (see `AuditLog.validateWith`). -/
abbrev Graph := List (Nat × GraphNode)

/-- Look up the node for a parent CID. -/
def Graph.findNode (g : Graph) (c : Nat) : Option GraphNode :=
  (g.find? (fun kv => kv.1 = c)).map (fun kv => kv.2)

/-- Replace the node for a parent CID, inserting it at the end if the
key is new (`HashMap::entry(..).or_insert_with(..)` followed by the
in-place mutation). -/
def Graph.updateNode : Graph → Nat → GraphNode → Graph
  | [], c, n => [(c, n)]
  | kv :: rest, c, n =>
      if kv.1 = c then (c, n) :: rest else kv :: Graph.updateNode rest c n

/-- Nullification bookkeeping for one non-genesis entry `e` with parent
`p` (audit.rs lines 115-196): returns the errors raised and the updated
graph. -/
def processGraph (e : LogEntry) (sa : Option Nat) (p : LogEntry) (g : Graph) :
    List AuditError × Graph :=
  let node := (g.findNode p.cid).getD ⟨none, []⟩
  let (errs, node1) :=
    if e.nullified then
      if !p.nullified then
        match node.activeChild with
        | some _ => ([AuditError.entryIncorrectlyNullified e.cid], node)
        | none =>
            (([] : List AuditError),
             { node with nullifiedChildren := node.nullifiedChildren ++ [(e, sa)] })
      else ([], node)
    else if p.nullified then
      ([AuditError.entryIncorrectlyActive e.cid], node)
    else
      match node.activeChild with
      | some (earlier, esa) =>
          if e.nullifies sa earlier esa then
            ([AuditError.entryIncorrectlyActive earlier.cid],
             { node with activeChild := some (e, sa) })
          else
            ([AuditError.multipleActiveChildren e.cid earlier.cid], node)
      | none =>
          let keep := node.nullifiedChildren.filter (fun nc => !(e.nullifies sa nc.1 nc.2))
          ((if keep.isEmpty then [] else [AuditError.entryIncorrectlyActive e.cid]),
           { activeChild := some (e, sa), nullifiedChildren := keep })
  (errs, g.updateNode p.cid node1)

/-- The `find_prev` closure of `AuditLog::validate` (audit.rs lines
79-93): locate the declared previous operation in the already-seen
part of the log; an entry appearing later raises
`PrevReferencesFuture`, an absent one `PrevMissing`. -/
def findPrev (entries : List LogEntry) (i : Nat) (e : LogEntry) (p : Nat) :
    Except AuditError LogEntry :=
  let past := entries.take i
  let future := entries.drop i
  match past.find? (fun en => en.cid = p) with
  | some en => .ok en
  | none =>
      if future.any (fun en => en.cid = p) then
        .error (.prevReferencesFuture e.cid p)
      else
        .error (.prevMissing p)

/-- Locating the declared previous operation of an entry per its
variant (the `prev` match of `AuditLog::validate`, audit.rs lines
95-99). -/
def prevResult (entries : List LogEntry) (i : Nat) (e : LogEntry) :
    Except AuditError (Option LogEntry) :=
  match e.operation.content with
  | .change _ (some p) _ => (findPrev entries i e p).map some
  | .change _ none _ => .ok none
  | .tombstone p => (findPrev entries i e p).map some
  | .legacyCreate _ _ _ _ => .ok none

/-- Processing of one entry of the main loop of `AuditLog::validate`
(audit.rs lines 72-213): self checks, prev resolution, per-entry
validation and nullification bookkeeping. -/
def stepEntry (ext : Ext) (did : String) (entries : List LogEntry) (i : Nat)
    (e : LogEntry) (g : Graph) : List AuditError × Graph :=
  let selfErrs := e.validateSelf ext did
  match prevResult entries i e with
  | .error er => (selfErrs ++ [er], g)
  | .ok none =>
      let vp := e.validateWithPrev ext none
      let genErrs :=
        (if i ≠ 0 then [AuditError.nonGenesisCreate e.cid] else []) ++
        (if e.nullified then [AuditError.entryIncorrectlyNullified e.cid] else [])
      (selfErrs ++ vp.1 ++ genErrs, g)
  | .ok (some p) =>
      let vp := e.validateWithPrev ext (some p)
      let pg := processGraph e vp.2 p g
      (selfErrs ++ vp.1 ++ pg.1, pg.2)

/-- The main loop of `AuditLog::validate`, from position `i` with the
remaining entries and the current graph. -/
def runFrom (ext : Ext) (did : String) (entries : List LogEntry) :
    Nat → List LogEntry → Graph → List AuditError × Graph
  | _, [], g => ([], g)
  | i, e :: rest, g =>
      let step := stepEntry ext did entries i e g
      let next := runFrom ext did entries (i + 1) rest step.2
      (step.1 ++ next.1, next.2)

/-- The whole main loop over the entries of the log. -/
def runEntries (ext : Ext) (did : String) (entries : List LogEntry) :
    List AuditError × Graph :=
  runFrom ext did entries 0 entries []

/-- The settlement pass (audit.rs lines 215-223): every nullified child
still pending in the graph raises `EntryIncorrectlyNullified`. -/
def settleErrors (g : Graph) : List AuditError :=
  g.flatMap (fun kv => kv.2.nullifiedChildren.map
    (fun nc => AuditError.entryIncorrectlyNullified nc.1.cid))

/-- Translation of `AuditLog::validate` (audit.rs lines 40-231), with
the iteration order of the settlement pass over the Rust `HashMap` made
explicit as a reordering function `σ` applied to the final graph: the
source iterates the map in an unspecified hash order, of which the
insertion order (`σ = id`) is one instance. -/
def AuditLog.validateWith (σ : Graph → Graph) (ext : Ext) (log : AuditLog) :
    Except (List AuditError) Unit :=
  let run := runEntries ext log.did log.entries
  let errs := genesisErrors ext log.did log.entries ++ run.1 ++ settleErrors (σ run.2)
  if errs.isEmpty then .ok () else .error errs

/-- The validator with the settlement pass in graph insertion order. -/
def AuditLog.validate (ext : Ext) (log : AuditLog) : Except (List AuditError) Unit :=
  AuditLog.validateWith id ext log

deriving instance DecidableEq for Except

/-! ## The mirror store (`src/mirror/db.rs`)

The SQLite schema is modelled as lists of rows; a row id is the row's
position in its table, so inserts append and ids are stable.  The
`ON CONFLICT` clauses of the prepared statements become lookups before
append. -/

/-- The `atproto` verification-method name (`src/data.rs`). -/
def ATPROTO_VERIFICATION_METHOD : String := "atproto"

/-- The `atproto_pds` service kind (`src/data.rs`). -/
def ATPROTO_PDS_KIND : String := "atproto_pds"

/-- The `AtprotoPersonalDataServer` service type (`src/data.rs`). -/
def ATPROTO_PDS_TYPE : String := "AtprotoPersonalDataServer"

/-- Insert `x` into a sorted list, before the first element that `x`
compares at-or-before (auxiliary for `sortBy`). -/
def insertSorted (le : α → α → Bool) (x : α) : List α → List α
  | [] => [x]
  | y :: ys => if le x y then x :: y :: ys else y :: insertSorted le x ys

/-- Stable insertion sort, modelling a SQL `ORDER BY`: deterministic,
and elements that compare equal keep their row order. -/
def sortBy (le : α → α → Bool) : List α → List α
  | [] => []
  | x :: xs => insertSorted le x (sortBy le xs)

/-- Strip a leading `at://` scheme (`str::strip_prefix` applied to the
handle alias in `HydratedEntry::assemble`). -/
def stripAtScheme (s : String) : Option String :=
  match s.data with
  | 'a' :: 't' :: ':' :: '/' :: '/' :: rest => some (String.mk rest)
  | _ => none

/-- A row of the `plc_log` table.  `alsoKnownAs` holds the JSON array of
strings written by `insert_entry` (the only shape the importer ever
writes); `prev` holds the resolved `entry_id` of the previous
operation. -/
structure PlcLogRow where
  cid : Nat
  identity : Nat
  createdAt : Int
  nullified : Bool
  type : String
  alsoKnownAs : Option (List String)
  atprotoSigning : Option Nat
  atprotoPds : Option Nat
  prev : Option Nat
  sig : String
deriving DecidableEq, Repr

/-- The mirror database: one list of rows per table of
`CREATE_DATABASES`.  `rotationKeys` rows are `(entry, authority, key)`,
`verificationMethods` rows are `(entry, service, key)`, `services` rows
are `(entry, kind, type, endpoint)`. -/
structure MirrorDb where
  identity : List String
  key : List String
  atprotoPds : List String
  plcLog : List PlcLogRow
  rotationKeys : List (Nat × Nat × Nat)
  verificationMethods : List (Nat × String × Nat)
  services : List (Nat × String × String × String)
deriving DecidableEq, Repr

/-- The empty mirror database (freshly created schema). -/
def MirrorDb.empty : MirrorDb := ⟨[], [], [], [], [], [], []⟩

/-- Upsert into the `identity` table (`DbInserter::insert_did`):
`INSERT .. ON CONFLICT DO UPDATE SET did = did RETURNING identity_id`
returns the existing row id on conflict. -/
def MirrorDb.insertDid (db : MirrorDb) (did : String) : Nat × MirrorDb :=
  match enumerateFind (fun x => x = did) db.identity with
  | some i => (i, db)
  | none => (db.identity.length, { db with identity := db.identity ++ [did] })

/-- Upsert into the `key` table (`DbInserter::insert_key`). -/
def MirrorDb.insertKey (db : MirrorDb) (key : String) : Nat × MirrorDb :=
  match enumerateFind (fun x => x = key) db.key with
  | some i => (i, db)
  | none => (db.key.length, { db with key := db.key ++ [key] })

/-- Upsert into the `atproto_pds` table
(`DbInserter::insert_atproto_pds`). -/
def MirrorDb.insertAtprotoPds (db : MirrorDb) (endpoint : String) : Nat × MirrorDb :=
  match enumerateFind (fun x => x = endpoint) db.atprotoPds with
  | some i => (i, db)
  | none => (db.atprotoPds.length, { db with atprotoPds := db.atprotoPds ++ [endpoint] })

/-- Find a `plc_log` row id by CID (`stmt_find_entry`). -/
def MirrorDb.findEntry (db : MirrorDb) (c : Nat) : Option Nat :=
  enumerateFind (fun r => r.cid = c) db.plcLog

/-- Insert into `plc_log` (`DbInserter::insert_entry`): the declared
`prev` CID is first resolved to an `entry_id` (a missing prev makes the
query, and with it the whole import transaction, fail); on a CID
conflict the existing row id is returned and the row is left as it
was. -/
def MirrorDb.insertEntry (db : MirrorDb) (cid : Nat) (identityId : Nat) (createdAt : Int)
    (nullified : Bool) (type : String) (alsoKnownAs : Option (List String))
    (atprotoSigning atprotoPds : Option Nat) (prevCid : Option Nat) (sig : String) :
    Except String (Nat × MirrorDb) :=
  let write : Option Nat → Except String (Nat × MirrorDb) := fun prevId =>
    match db.findEntry cid with
    | some i => .ok (i, db)
    | none =>
        .ok (db.plcLog.length,
          { db with plcLog := db.plcLog ++
              [⟨cid, identityId, createdAt, nullified, type, alsoKnownAs,
                atprotoSigning, atprotoPds, prevId, sig⟩] })
  match prevCid with
  | none => write none
  | some c =>
      match db.findEntry c with
      | some i => write (some i)
      | none => .error "query returned no rows"

/-- Insert into `rotation_keys` (`DbInserter::insert_rotation_key`):
upsert the key string, then `INSERT .. ON CONFLICT DO NOTHING` on the
`UNIQUE(entry, authority)` constraint. -/
def MirrorDb.insertRotationKey (db : MirrorDb) (entryId authority : Nat) (key : String) :
    MirrorDb :=
  let r := db.insertKey key
  let db1 := r.2
  if db1.rotationKeys.any (fun x => decide (x.1 = entryId ∧ x.2.1 = authority)) then db1
  else { db1 with rotationKeys := db1.rotationKeys ++ [(entryId, authority, r.1)] }

/-- Insert into `verification_methods`
(`DbInserter::insert_verification_method`), `ON CONFLICT DO NOTHING` on
`UNIQUE(entry, service)`. -/
def MirrorDb.insertVerificationMethod (db : MirrorDb) (entryId : Nat) (service key : String) :
    MirrorDb :=
  let r := db.insertKey key
  let db1 := r.2
  if db1.verificationMethods.any (fun x => decide (x.1 = entryId ∧ x.2.1 = service)) then db1
  else { db1 with verificationMethods := db1.verificationMethods ++ [(entryId, service, r.1)] }

/-- Insert into `services` (`DbInserter::insert_service`),
`ON CONFLICT DO NOTHING` on `UNIQUE(entry, kind)`. -/
def MirrorDb.insertService (db : MirrorDb) (entryId : Nat) (kind type endpoint : String) :
    MirrorDb :=
  if db.services.any (fun x => decide (x.1 = entryId ∧ x.2.1 = kind)) then db
  else { db with services := db.services ++ [(entryId, kind, type, endpoint)] }

/-- Insert the rotation keys of a change operation with their authority
indices (the `for (authority, key) in op.data.rotation_keys.iter().enumerate()`
loop of `Db::import`). -/
def MirrorDb.insertRotationKeysOf (db : MirrorDb) (entryId : Nat) (keys : List String) :
    MirrorDb :=
  keys.enum.foldl (fun db ia => db.insertRotationKey entryId ia.1 ia.2) db

/-- Import of a single parsed log entry (the loop body of `Db::import`,
db.rs lines 94-199). -/
def MirrorDb.processEntry (db : MirrorDb) (e : LogEntry) : Except String MirrorDb := do
  let r0 := db.insertDid e.did
  let identityId := r0.1
  let db := r0.2
  match e.operation.content with
  | .change d prev _extra =>
      let r1 :=
        match d.verificationMethods.find? (fun m => m.1 = ATPROTO_VERIFICATION_METHOD) with
        | some m => let r := db.insertKey m.2; (some r.1, r.2)
        | none => (none, db)
      let atprotoSigning := r1.1
      let db := r1.2
      let r2 :=
        match d.services.find?
            (fun s => decide (s.1 = ATPROTO_PDS_KIND ∧ s.2.type = ATPROTO_PDS_TYPE)) with
        | some s => let r := db.insertAtprotoPds s.2.endpoint; (some r.1, r.2)
        | none => (none, db)
      let atprotoPds := r2.1
      let db := r2.2
      let r3 ← db.insertEntry e.cid identityId e.createdAt e.nullified "O"
        (some d.alsoKnownAs) atprotoSigning atprotoPds prev e.operation.sig
      let entryId := r3.1
      let db := r3.2
      let db := db.insertRotationKeysOf entryId d.rotationKeys
      let db := (d.verificationMethods.filter
          (fun m => m.1 ≠ ATPROTO_VERIFICATION_METHOD)).foldl
        (fun db m => db.insertVerificationMethod entryId m.1 m.2) db
      let db := (d.services.filter
          (fun s => !decide (s.1 = ATPROTO_PDS_KIND ∧ s.2.type = ATPROTO_PDS_TYPE))).foldl
        (fun db s => db.insertService entryId s.1 s.2.type s.2.endpoint) db
      pure db
  | .tombstone p =>
      let r3 ← db.insertEntry e.cid identityId e.createdAt e.nullified "T"
        none none none (some p) e.operation.sig
      pure r3.2
  | .legacyCreate sk rk handle service =>
      let rs := db.insertKey sk
      let signingId := rs.1
      let db := rs.2
      let rp := db.insertAtprotoPds service
      let pdsId := rp.1
      let db := rp.2
      let r3 ← db.insertEntry e.cid identityId e.createdAt e.nullified "C"
        (some ["at://" ++ handle]) (some signingId) (some pdsId) none e.operation.sig
      let entryId := r3.1
      let db := r3.2
      let db := db.insertRotationKey entryId 0 rk
      pure (db.insertRotationKey entryId 1 sk)

/-- Import of a batch of log entries within one transaction
(`Db::import`): processes entries in order; returns the updated store
and the creation time of the last entry (the value the importer resumes
from).  Any failure aborts the whole batch, mirroring the transaction
rollback. -/
def MirrorDb.importEntries : MirrorDb → List LogEntry → Except String (MirrorDb × Option Int)
  | db, [] => .ok (db, none)
  | db, e :: rest => do
      let db1 ← db.processEntry e
      let r ← db1.importEntries rest
      pure (r.1, some (r.2.getD e.createdAt))

/-- Translation of `Db::get_last_created`: the greatest `created_at`
over `plc_log` (`ORDER BY created_at DESC LIMIT 1`), `none` on an empty
table. -/
def MirrorDb.getLastCreated (db : MirrorDb) : Option Int :=
  db.plcLog.foldl
    (fun acc r =>
      match acc with
      | none => some r.createdAt
      | some m => some (max m r.createdAt))
    none

/-! ## Mirror read paths (`Entry`, `HydratedEntry` in db.rs) -/

/-- A selected `plc_log` row after the joins of the read queries
(the Rust `Entry` struct): key ids replaced by key strings, the prev
entry id replaced by its CID. -/
structure EntryView where
  entryId : Nat
  did : String
  cid : Nat
  createdAt : Int
  nullified : Bool
  type : String
  alsoKnownAs : Option (List String)
  atprotoSigning : Option String
  atprotoPds : Option String
  prev : Option Nat
  sig : String
deriving DecidableEq, Repr

/-- Build an `EntryView` from a raw row (`Entry::from_row` plus the
`LEFT JOIN`s of the read queries; a dangling id joins to NULL). -/
def MirrorDb.viewRow (db : MirrorDb) (did : String) (entryId : Nat) (r : PlcLogRow) :
    EntryView :=
  { entryId, did, cid := r.cid, createdAt := r.createdAt, nullified := r.nullified,
    type := r.type, alsoKnownAs := r.alsoKnownAs,
    atprotoSigning := r.atprotoSigning.bind (fun i => db.key.get? i),
    atprotoPds := r.atprotoPds.bind (fun i => db.atprotoPds.get? i),
    prev := r.prev.bind (fun i => (db.plcLog.get? i).map (fun pr => pr.cid)),
    sig := r.sig }

/-- A hydrated entry (`HydratedEntry`): the row plus its satellite
rows. -/
structure HydratedEntry where
  entry : EntryView
  rotationKeys : List String
  verificationMethods : List (String × String)
  services : List (String × String × String)
deriving DecidableEq, Repr

/-- Satellite queries of `Entry::hydrate`: rotation keys ordered by
authority, verification methods and services of the entry. -/
def MirrorDb.hydrate (db : MirrorDb) (v : EntryView) : HydratedEntry :=
  let rks := (sortBy (fun a b => a.2.1 ≤ b.2.1)
      (db.rotationKeys.filter (fun x => decide (x.1 = v.entryId)))).filterMap
      (fun x => db.key.get? x.2.2)
  let vms := (db.verificationMethods.filter (fun x => decide (x.1 = v.entryId))).filterMap
      (fun x => (db.key.get? x.2.2).map (fun k => (x.2.1, k)))
  let svcs := (db.services.filter (fun x => decide (x.1 = v.entryId))).map
      (fun x => (x.2.1, x.2.2.1, x.2.2.2))
  ⟨v, rks, vms, svcs⟩

/-- Reconstruction of the operation content from a hydrated row (the
`content` match of `HydratedEntry::assemble`, db.rs lines 747-855). -/
def HydratedEntry.assembleContent (h : HydratedEntry) : Except String Operation :=
  let v := h.entry
  match v.type with
    | "O" => do
        let aka : List String ←
          match v.alsoKnownAs with
          | some aka => pure aka
          | none => throw "Missing also_known_as"
        let vms :=
          match v.atprotoSigning with
          | some k => (ATPROTO_VERIFICATION_METHOD, k) :: h.verificationMethods
          | none => h.verificationMethods
        let svcs := (h.services.map (fun s => (s.1, Service.mk s.2.1 s.2.2))) ++
          (match v.atprotoPds with
           | some ep => [(ATPROTO_PDS_KIND, Service.mk ATPROTO_PDS_TYPE ep)]
           | none => [])
        pure (Operation.change ⟨h.rotationKeys, vms, aka, svcs⟩ v.prev [])
    | "T" =>
        if v.alsoKnownAs.isSome || v.atprotoSigning.isSome || v.atprotoPds.isSome then
          throw "Tombstone has unexpected entries"
        else
          match v.prev with
          | some p => pure (Operation.tombstone p)
          | none => throw "Tombstone op missing prev"
    | "C" =>
        (match h.rotationKeys, h.verificationMethods, h.services with
         | [recoveryKey, secondKey], [], [] =>
             if some secondKey ≠ v.atprotoSigning then
               throw "Legacy create op has secondary rotation key mismatch"
             else do
               let handle : String ←
                 match v.alsoKnownAs with
                 | some [aka] =>
                     (match stripAtScheme aka with
                      | some handle => pure handle
                      | none => throw "also_known_as missing at scheme")
                 | some _ => throw "Legacy create op also_known_as is not length 1"
                 | none => throw "Missing also_known_as"
               let signingKey : String ←
                 match v.atprotoSigning with
                 | some k => pure k
                 | none => throw "Legacy create op missing signing_key"
               let service : String ←
                 match v.atprotoPds with
                 | some ep => pure ep
                 | none => throw "Legacy create op missing atproto_pds"
               pure (Operation.legacyCreate signingKey recoveryKey handle service)
         | _, _, _ => throw "Legacy create op has unexpected entries")
    | _ => throw "Unknown operation type"

/-- Translation of `HydratedEntry::assemble` (db.rs lines 736-876):
rebuild the `SignedOperation` from the normalized rows plus the
pulled-out `atproto` signing key and `atproto_pds` endpoint, recompute
its CID, and refuse the row if the recomputed CID differs from the
stored one. -/
def HydratedEntry.assemble (h : HydratedEntry) (ext : Ext) : Except String LogEntry := do
  let v := h.entry
  let content ← h.assembleContent
  let operation : SignedOperation := ⟨content, v.sig⟩
  if ext.cidOf operation = v.cid then
    pure ⟨v.did, operation, v.cid, v.nullified, v.createdAt⟩
  else
    throw "Internal server error: CID mismatch"

/-- Row id of a DID in the `identity` table. -/
def MirrorDb.identityIdOf (db : MirrorDb) (did : String) : Option Nat :=
  enumerateFind (fun x => x = did) db.identity

/-- The `plc_log` rows (with their row ids) of a DID
(the `JOIN identity .. WHERE did = :did` of the read queries). -/
def MirrorDb.rowsForDid (db : MirrorDb) (did : String) : List (Nat × PlcLogRow) :=
  match db.identityIdOf did with
  | none => []
  | some iid => db.plcLog.enum.filter (fun ir => decide (ir.2.identity = iid))

/-- Rows sorted by ascending creation time (`ORDER BY curr.created_at`;
ties are returned in row order, one admissible SQL result order). -/
def sortByCreatedAsc (l : List (Nat × PlcLogRow)) : List (Nat × PlcLogRow) :=
  sortBy (fun a b => a.2.createdAt ≤ b.2.createdAt) l

/-- Rows sorted by descending creation time
(`ORDER BY curr.created_at DESC`). -/
def sortByCreatedDesc (l : List (Nat × PlcLogRow)) : List (Nat × PlcLogRow) :=
  sortBy (fun a b => b.2.createdAt ≤ a.2.createdAt) l

/-- Translation of `Db::get_last_active_entry` composed with
`Entry::get_latest_active`: the newest non-nullified row of the DID,
hydrated and reassembled. -/
def MirrorDb.getLastActiveEntry (db : MirrorDb) (ext : Ext) (did : String) :
    Except String (Option LogEntry) :=
  let candidates := (db.rowsForDid did).filter (fun ir => ir.2.nullified = false)
  match (sortByCreatedDesc candidates).head? with
  | none => .ok none
  | some ir => ((db.hydrate (db.viewRow did ir.1 ir.2)).assemble ext).map some

/-- Translation of `Db::get_audit_log` composed with
`Entry::get_audit_log`: all rows of the DID ordered by creation time,
hydrated and reassembled. -/
def MirrorDb.getAuditLog (db : MirrorDb) (ext : Ext) (did : String) :
    Except String (List LogEntry) :=
  (sortByCreatedAsc (db.rowsForDid did)).mapM
    (fun ir => (db.hydrate (db.viewRow did ir.1 ir.2)).assemble ext)

/-- Query parameters of the `/export` route (`ExportParams` in
`src/mirror/mod.rs`). -/
structure ExportParams where
  count : Option Nat
  after : Option Int
deriving DecidableEq, Repr

/-- Translation of `ExportParams::bounded_count`:
`count.unwrap_or(10).min(1000)`. -/
def ExportParams.boundedCount (p : ExportParams) : Nat :=
  min (p.count.getD 10) 1000

/-- The `curr.created_at > :after` condition of
`Entry::get_log_entries` under SQL three-valued logic: when `:after` is
NULL the comparison evaluates to NULL, which the WHERE clause does not
keep. -/
def sqlCreatedAfter (createdAt : Int) (after : Option Int) : Bool :=
  match after with
  | some t => decide (createdAt > t)
  | none => false

/-- Translation of `Entry::get_log_entries`: rows with
`created_at > :after`, ordered by creation time, limited to `count`,
joined with `identity` for the DID. -/
def MirrorDb.getLogEntries (db : MirrorDb) (count : Nat) (after : Option Int) :
    List (String × Nat × PlcLogRow) :=
  ((sortByCreatedAsc
      (db.plcLog.enum.filter (fun ir => sqlCreatedAfter ir.2.createdAt after))).take
    count).filterMap
    (fun ir => (db.identity.get? ir.2.identity).map (fun d => (d, ir.1, ir.2)))

/-- Translation of `Db::export` (which the `/export` route of
`src/mirror/api.rs` calls directly with the request's query
parameters): the selected rows, hydrated and reassembled. -/
def MirrorDb.exportEntries (db : MirrorDb) (ext : Ext) (params : ExportParams) :
    Except String (List LogEntry) :=
  (db.getLogEntries params.boundedCount params.after).mapM
    (fun t => (db.hydrate (db.viewRow t.1 t.2.1 t.2.2)).assemble ext)

/-! ## Invariant vocabulary for the import proofs

Row ids are list positions, so every insert only ever appends; a store
reached later in an import extends the earlier one tablewise. -/

/-- `DbExtends db1 db2`: every table of `db2` is `db1`'s table with
rows appended at the end (so all row ids of `db1` are ids of the same
rows in `db2`). -/
structure DbExtends (db1 db2 : MirrorDb) : Prop where
  identity : ∃ t, db2.identity = db1.identity ++ t
  key : ∃ t, db2.key = db1.key ++ t
  atprotoPds : ∃ t, db2.atprotoPds = db1.atprotoPds ++ t
  plcLog : ∃ t, db2.plcLog = db1.plcLog ++ t
  rotationKeys : ∃ t, db2.rotationKeys = db1.rotationKeys ++ t
  verificationMethods : ∃ t, db2.verificationMethods = db1.verificationMethods ++ t
  services : ∃ t, db2.services = db1.services ++ t

/-- The DID is present in the `identity` table. -/
def didPresent (db : MirrorDb) (v : String) : Prop :=
  ∃ i, enumerateFind (fun x => x = v) db.identity = some i

/-- The key string is present in the `key` table. -/
def keyPresent (db : MirrorDb) (k : String) : Prop :=
  ∃ i, enumerateFind (fun x => x = k) db.key = some i

/-- The endpoint is present in the `atproto_pds` table. -/
def pdsPresent (db : MirrorDb) (ep : String) : Prop :=
  ∃ i, enumerateFind (fun x => x = ep) db.atprotoPds = some i

/-- A `rotation_keys` row with this `(entry, authority)` pair exists. -/
def rotPresent (db : MirrorDb) (entryId authority : Nat) : Prop :=
  db.rotationKeys.any (fun x => decide (x.1 = entryId ∧ x.2.1 = authority)) = true

/-- A `verification_methods` row with this `(entry, service)` pair
exists. -/
def vmPresent (db : MirrorDb) (entryId : Nat) (service : String) : Prop :=
  db.verificationMethods.any (fun x => decide (x.1 = entryId ∧ x.2.1 = service)) = true

/-- A `services` row with this `(entry, kind)` pair exists. -/
def svcPresent (db : MirrorDb) (entryId : Nat) (kind : String) : Prop :=
  db.services.any (fun x => decide (x.1 = entryId ∧ x.2.1 = kind)) = true

/-! ## Concrete sample data

Explicit instances of the oracle record and small logs, used to
evaluate the theorems below on closed inputs. -/

/-- Sample identity state: two rotation keys, an `atproto` signing key,
one alias, an `atproto_pds` service. -/
def dataW : PlcData :=
  ⟨["k0", "k1"], [("atproto", "sk")], ["at://alice"],
   [("atproto_pds", ⟨"AtprotoPersonalDataServer", "https://pds"⟩)]⟩

/-- Sample oracle bundle: the CID of a change operation is one more
than its prev (1 for a genesis), a legacy create has CID 10; every DID
derives to `d`; every signature verifies. -/
def extW : Ext :=
  { cidOf := fun so =>
      match so.content with
      | .change _ none _ => 1
      | .change _ (some p) _ => p + 1
      | .tombstone p => p + 1
      | .legacyCreate _ _ _ _ => 10
    deriveDid := fun _ => "d"
    verify := fun _ _ _ _ => true }

/-- Sample genesis change entry (CID 1). -/
def gW : LogEntry :=
  { did := "d", operation := { content := .change dataW none [], sig := "AAAA" },
    cid := 1, nullified := false, createdAt := 0 }

/-- Sample change entry following `gW` (CID 2). -/
def aW : LogEntry :=
  { did := "d", operation := { content := .change dataW (some 1) [], sig := "AAAA" },
    cid := 2, nullified := false, createdAt := 5 }

/-- Sample change entry following `aW` (CID 3). -/
def bW : LogEntry :=
  { did := "d", operation := { content := .change dataW (some 2) [], sig := "AAAA" },
    cid := 3, nullified := false, createdAt := 6 }

/-- Sample tombstone following `aW` (CID 3). -/
def tW : LogEntry :=
  { did := "d", operation := { content := .tombstone 2, sig := "AAAA" },
    cid := 3, nullified := false, createdAt := 7 }

/-- Sample change entry chaining from the tombstone `tW` (CID 4). -/
def dWpost : LogEntry :=
  { did := "d", operation := { content := .change dataW (some 3) [], sig := "AAAA" },
    cid := 4, nullified := false, createdAt := 8 }

/-- Genesis change entry created before the malleability cutoff whose
signature carries base64 padding (CID 20). -/
def eBeforeW : LogEntry :=
  { did := "d", operation := { content := .change dataW none [], sig := "AA==" },
    cid := 20, nullified := false, createdAt := 0 }

/-- Genesis change entry created exactly at the malleability cutoff
whose signature carries base64 padding (CID 21). -/
def eAfterW : LogEntry :=
  { did := "d", operation := { content := .change dataW none [], sig := "AA==" },
    cid := 21, nullified := false, createdAt := MALLEABILITY_PREVENTED }

/-- Genesis change entry after the cutoff with an undecodable signature
and a non-empty rotation key list (CID 22). -/
def eEncW : LogEntry :=
  { did := "d", operation := { content := .change dataW none [], sig := "=" },
    cid := 22, nullified := false, createdAt := MALLEABILITY_PREVENTED }

/-- Genesis change entry after the cutoff with an undecodable signature
and an empty rotation key list (CID 23). -/
def eEmptyKeysW : LogEntry :=
  { did := "d", operation := { content := .change ⟨[], [], [], []⟩ none [], sig := "=" },
    cid := 23, nullified := false, createdAt := MALLEABILITY_PREVENTED }

/-- Sample legacy create entry (CID 10) for a second identity. -/
def lW : LogEntry :=
  { did := "e",
    operation := { content := .legacyCreate "skey" "rkey" "bob.test" "https://p2",
                   sig := "AAAA" },
    cid := 10, nullified := false, createdAt := 3 }

/-- Sample mirror store holding the imported sample chains (falls back
to the empty store if the import fails, which it does not). -/
def dbW : MirrorDb :=
  match MirrorDb.empty.importEntries [gW, aW, tW, lW] with
  | .ok r => r.1
  | .error _ => MirrorDb.empty

/-- The hydrated form of the sample legacy create row. -/
def hydLW : HydratedEntry :=
  { entry :=
      { entryId := 3, did := "e", cid := 10, createdAt := 3, nullified := false,
        type := "C", alsoKnownAs := some ["at://bob.test"],
        atprotoSigning := some "skey", atprotoPds := some "https://p2",
        prev := none, sig := "AAAA" },
    rotationKeys := ["rkey", "skey"],
    verificationMethods := [],
    services := [] }

/-! ## General lemmas about the search and decoding primitives -/

theorem enumerateFind_cons_pos {α : Type _} {p : α → Bool} {a : α} (h : p a = true)
    (l : List α) : enumerateFind p (a :: l) = some 0 := by
  simp [enumerateFind, h]

theorem enumerateFind_cons_neg {α : Type _} {p : α → Bool} {a : α} (h : p a = false)
    (l : List α) :
    enumerateFind p (a :: l) = (enumerateFind p l).map (· + 1) := by
  simp [enumerateFind, h]

theorem enumerateFind_eq_some_iff {α : Type _} {p : α → Bool} {l : List α} {i : Nat} :
    enumerateFind p l = some i ↔
      ((∃ a, l[i]? = some a ∧ p a = true) ∧
       ∀ j, j < i → ∀ a, l[j]? = some a → p a = false) := by
  induction l generalizing i with
  | nil => simp [enumerateFind]
  | cons a l ih =>
      cases h : p a with
      | true =>
          rw [enumerateFind_cons_pos h]
          cases i with
          | zero => simp [h]
          | succ n =>
              constructor
              · intro hc; exact absurd hc (by simp)
              · rintro ⟨-, hall⟩
                have := hall 0 (Nat.succ_pos n) a (by simp)
                simp [h] at this
      | false =>
          rw [enumerateFind_cons_neg h]
          cases i with
          | zero =>
              constructor
              · intro hc
                rcases Option.map_eq_some'.mp hc with ⟨m, -, hm⟩
                exact absurd hm (by simp)
              · rintro ⟨⟨b, hb, hpb⟩, -⟩
                simp only [List.getElem?_cons_zero, Option.some.injEq] at hb
                subst hb
                exact absurd hpb (by simp [h])
          | succ n =>
              constructor
              · intro hc
                rcases Option.map_eq_some'.mp hc with ⟨m, hm, hmn⟩
                obtain rfl : m = n := by omega
                obtain ⟨he, hall⟩ := ih.mp hm
                refine ⟨by simpa using he, ?_⟩
                intro j hj b hb
                cases j with
                | zero =>
                    simp only [List.getElem?_cons_zero, Option.some.injEq] at hb
                    subst hb; exact h
                | succ j => exact hall j (by omega) b (by simpa using hb)
              · rintro ⟨he, hall⟩
                rw [ih.mpr ⟨by simpa using he,
                  fun j hj b hb => hall (j + 1) (by omega) b (by simpa using hb)⟩]
                rfl

theorem enumerateFind_eq_none_iff {α : Type _} {p : α → Bool} {l : List α} :
    enumerateFind p l = none ↔ ∀ a ∈ l, p a = false := by
  induction l with
  | nil => simp [enumerateFind]
  | cons a l ih =>
      cases h : p a with
      | true => rw [enumerateFind_cons_pos h]; simp [h]
      | false => rw [enumerateFind_cons_neg h]; simp [h, ih]

theorem enumerateFind_append_of_some {α : Type _} {p : α → Bool} {l₁ : List α} {i : Nat}
    (h : enumerateFind p l₁ = some i) (l₂ : List α) :
    enumerateFind p (l₁ ++ l₂) = some i := by
  induction l₁ generalizing i with
  | nil => exact absurd h (by simp [enumerateFind])
  | cons a l ih =>
      rw [List.cons_append]
      cases hp : p a with
      | true =>
          rw [enumerateFind_cons_pos hp] at h ⊢; exact h
      | false =>
          rw [enumerateFind_cons_neg hp] at h ⊢
          rcases Option.map_eq_some'.mp h with ⟨m, hm, hmn⟩
          rw [ih hm]; simp [hmn]

theorem enumerateFind_append_singleton {α : Type _} {p : α → Bool} {l : List α}
    (h : enumerateFind p l = none) {a : α} (ha : p a = true) :
    enumerateFind p (l ++ [a]) = some l.length := by
  induction l with
  | nil => simpa [enumerateFind] using enumerateFind_cons_pos ha []
  | cons b l ih =>
      cases hp : p b with
      | true => rw [enumerateFind_cons_pos hp l] at h; cases h
      | false =>
          rw [enumerateFind_cons_neg hp l] at h
          rw [List.cons_append, enumerateFind_cons_neg hp,
            ih (Option.map_eq_none'.mp h)]
          simp

theorem mapM_option_eq_none_of_mem {α β : Type _} {f : α → Option β} {l : List α} {a : α}
    (ha : a ∈ l) (hf : f a = none) : l.mapM f = none := by
  induction l with
  | nil => cases ha
  | cons b l ih =>
      rw [List.mapM_cons]
      rcases List.mem_cons.mp ha with rfl | hmem
      · rw [hf]; rfl
      · cases hb : f b
        · rfl
        · simp only [hb, Option.bind_eq_bind, Option.some_bind, ih hmem]
          rfl

/-! ## C1: the nullification rule -/

/-- C1: an entry `E` nullifies an earlier sibling `S` if and only if
`E.created_at` is at most `S.created_at` plus the 72-hour recovery
window and `E`'s signer authority index is strictly smaller than `S`'s;
when `E`'s signer authority is unknown it never nullifies, and when
only `S`'s is unknown the window condition alone decides. -/
theorem nullifies_window_and_authority (e S : LogEntry) (a b : Nat) :
    (e.nullifies (some a) S (some b) = true ↔
       (e.createdAt ≤ S.createdAt + RECOVERY_WINDOW ∧ a < b)) ∧
    (∀ esa : Option Nat, e.nullifies none S esa = false) ∧
    (e.nullifies (some a) S none = true ↔
       e.createdAt ≤ S.createdAt + RECOVERY_WINDOW) ∧
    RECOVERY_WINDOW = 72 * 60 * 60 * 1000000000 := by
  refine ⟨?_, ?_, ?_, rfl⟩
  · simp [LogEntry.nullifies]
  · intro esa; simp [LogEntry.nullifies]
  · simp [LogEntry.nullifies]

/-! ## Lemmas about `validate_with_prev` -/

theorem validateWithPrev_eq (ext : Ext) (e : LogEntry) (prev : Option LogEntry) :
    e.validateWithPrev ext prev =
      ((match e.decodedSig with
        | some _ => []
        | none => [AuditError.invalidSignatureEncoding e.cid]) ++
       (match signerKeys e prev with
        | .error er => [er]
        | .ok keys =>
            match enumerateFind (e.checkSig ext) keys with
            | some _ => []
            | none => [AuditError.trustViolation e.cid]) ++
       (match prev with
        | some p =>
            if e.createdAt < p.createdAt
            then [AuditError.entryCreatedBeforePrev e.cid p.cid] else []
        | none => []),
       match signerKeys e prev with
       | .error _ => none
       | .ok keys => enumerateFind (e.checkSig ext) keys) := by
  unfold LogEntry.validateWithPrev
  rcases hs : signerKeys e prev with er | keys
  · rfl
  · cases hf : enumerateFind (e.checkSig ext) keys <;> simp [hs, hf]

theorem signerKeys_error_cases {e : LogEntry} {prev : Option LogEntry} {er : AuditError}
    (h : signerKeys e prev = .error er) :
    er = .trustViolation e.cid ∨
      ∃ p, prev = some p ∧ er = .operationAfterDeactivation e.cid p.cid := by
  rcases prev with _ | p <;> rcases hc : e.operation.content with d | q | sk
  · simp [signerKeys, hc] at h
  · simp only [signerKeys, hc] at h
    cases h; left; rfl
  · simp [signerKeys, hc] at h
  · simp only [signerKeys, hc] at h
    rcases hp : p.operation.content with d2 | q2 | sk2 <;> rw [hp] at h <;> cases h
    right; exact ⟨p, rfl, rfl⟩
  · simp only [signerKeys, hc] at h
    rcases hp : p.operation.content with d2 | q2 | sk2 <;> rw [hp] at h <;> cases h
    right; exact ⟨p, rfl, rfl⟩
  · simp only [signerKeys, hc] at h
    cases h; left; rfl

theorem mem_ise_validateWithPrev {ext : Ext} {e : LogEntry} {prev : Option LogEntry} :
    AuditError.invalidSignatureEncoding e.cid ∈ (e.validateWithPrev ext prev).1 ↔
      e.decodedSig = none := by
  rw [validateWithPrev_eq]
  have htrust : AuditError.invalidSignatureEncoding e.cid ∉
      (match signerKeys e prev with
       | .error er => [er]
       | .ok keys =>
           match enumerateFind (e.checkSig ext) keys with
           | some _ => []
           | none => [AuditError.trustViolation e.cid]) := by
    rcases hs : signerKeys e prev with er | keys
    · intro hmem
      rcases List.mem_singleton.mp hmem with rfl
      rcases signerKeys_error_cases hs with h | ⟨p, -, h⟩ <;> cases h
    · cases hf : enumerateFind (e.checkSig ext) keys <;> simp [hf]
  have htime : AuditError.invalidSignatureEncoding e.cid ∉
      (match prev with
       | some p =>
           if e.createdAt < p.createdAt
           then [AuditError.entryCreatedBeforePrev e.cid p.cid] else []
       | none => []) := by
    rcases prev with _ | p
    · simp
    · split <;> simp
  cases hd : e.decodedSig <;> simp [List.mem_append, htrust, htime]

theorem mem_tv_validateWithPrev {ext : Ext} {e : LogEntry} {prev : Option LogEntry}
    {keys : List String} (hk : signerKeys e prev = .ok keys) :
    AuditError.trustViolation e.cid ∈ (e.validateWithPrev ext prev).1 ↔
      enumerateFind (e.checkSig ext) keys = none := by
  rw [validateWithPrev_eq]
  have henc : AuditError.trustViolation e.cid ∉
      (match e.decodedSig with
       | some _ => []
       | none => [AuditError.invalidSignatureEncoding e.cid]) := by
    cases hd : e.decodedSig <;> simp
  have htime : AuditError.trustViolation e.cid ∉
      (match prev with
       | some p =>
           if e.createdAt < p.createdAt
           then [AuditError.entryCreatedBeforePrev e.cid p.cid] else []
       | none => []) := by
    rcases prev with _ | p
    · simp
    · split <;> simp
  rw [hk]
  cases hf : enumerateFind (e.checkSig ext) keys <;>
    simp [List.mem_append, henc, htime, hf]

theorem signerAuthority_validateWithPrev {ext : Ext} {e : LogEntry} {prev : Option LogEntry}
    {keys : List String} (hk : signerKeys e prev = .ok keys) :
    (e.validateWithPrev ext prev).2 = enumerateFind (e.checkSig ext) keys := by
  rw [validateWithPrev_eq, hk]

/-! ## C2: the malleability cutoff gates signature handling -/

/-- C2: signature handling is gated by the single cutoff
`MALLEABILITY_PREVENTED` (2023-11-30T18:50:14Z, i.e. 1701370214 s)
compared against `created_at`.  Strictly before the cutoff, the padded
signature is accepted exactly when it decodes after stripping trailing
padding; at or after the cutoff, a signature carrying a base64 padding
character is reported as `InvalidSignatureEncoding`; and the verifier
is consulted exclusively in the malleability mode
`created_at < MALLEABILITY_PREVENTED`. -/
theorem signature_cutoff_gating (ext : Ext) (e : LogEntry) (prev : Option LogEntry) :
    MALLEABILITY_PREVENTED = 1701370214 * 1000000000 ∧
    (e.createdAt < MALLEABILITY_PREVENTED →
      (AuditError.invalidSignatureEncoding e.cid ∈ (e.validateWithPrev ext prev).1 ↔
        base64UrlUnpaddedDecode (trimEndPad e.operation.sig) = none)) ∧
    (MALLEABILITY_PREVENTED ≤ e.createdAt →
      Char.ofNat 61 ∈ e.operation.sig.data →
      AuditError.invalidSignatureEncoding e.cid ∈ (e.validateWithPrev ext prev).1) ∧
    (∀ ext2 : Ext,
      (∀ k op s, ext.verify e.allowMalleable k op s = ext2.verify e.allowMalleable k op s) →
      e.validateWithPrev ext prev = e.validateWithPrev ext2 prev) := by
  refine ⟨by decide, ?_, ?_, ?_⟩
  · intro h
    rw [mem_ise_validateWithPrev]
    unfold LogEntry.decodedSig LogEntry.encodedSig LogEntry.allowMalleable
    simp [h]
  · intro h hmem
    rw [mem_ise_validateWithPrev]
    unfold LogEntry.decodedSig LogEntry.encodedSig LogEntry.allowMalleable
    rw [if_neg (by simp; omega)]
    unfold base64UrlUnpaddedDecode
    rw [mapM_option_eq_none_of_mem hmem (by decide)]
    rfl
  · intro ext2 hv
    have hcs : e.checkSig ext = e.checkSig ext2 := by
      funext k
      unfold LogEntry.checkSig
      cases hd : e.decodedSig with
      | none => rfl
      | some s => exact hv k e.operation.content s
    rw [validateWithPrev_eq, validateWithPrev_eq, hcs]

/-- Witness for C2 at the sample entries: the padded signature of
`eBeforeW` (created before the cutoff) is not reported, while the same
padded signature on `eAfterW` (created at the cutoff) is reported as
`InvalidSignatureEncoding`. -/
theorem signature_cutoff_gating_witness :
    AuditError.invalidSignatureEncoding eBeforeW.cid ∉
      (eBeforeW.validateWithPrev extW none).1 ∧
    AuditError.invalidSignatureEncoding eAfterW.cid ∈
      (eAfterW.validateWithPrev extW none).1 :=
  ⟨fun hmem => absurd
      (((signature_cutoff_gating extW eBeforeW none).2.1 (by decide)).mp hmem)
      (by decide),
   (signature_cutoff_gating extW eAfterW none).2.2.1 (by decide) (by decide)⟩

/-! ## C3: signer authority (corrected) -/

/-- Counterexample for C3 as stated: the validator does not treat an
entry with unknown signer authority as if it were signed by the
highest-authority key (index 0).  With the concrete sibling pair
`aW`/`gW` inside the recovery window: an entry of authority 1 does
nullify an earlier sibling of unknown authority, whereas it would not
nullify a sibling of authority 0. -/
theorem untrusted_not_authority_zero_counterexample :
    aW.nullifies (some 1) gW none = true ∧
    aW.nullifies (some 1) gW (some 0) = false := by decide

/-- C3 (amended): the signer authority is the smallest index among the
applicable rotation keys whose key verifies the decoded signature over
the entry's unsigned bytes, in malleability mode exactly when
`created_at` is before the cutoff; when no key verifies, the authority
is unknown and `TrustViolation` is reported.  Downstream, an
unknown-authority active entry never nullifies, and an
unknown-authority earlier sibling is nullified whenever the recovery
window condition holds (not the authority-0 behaviour the claim
states). -/
theorem signer_authority_smallest_index (ext : Ext) (e : LogEntry) (prev : Option LogEntry)
    (keys : List String) (s : List Nat)
    (hk : signerKeys e prev = .ok keys) (hs : e.decodedSig = some s) :
    (e.allowMalleable = true ↔ e.createdAt < MALLEABILITY_PREVENTED) ∧
    (∀ i, (e.validateWithPrev ext prev).2 = some i ↔
      ((∃ k, keys[i]? = some k ∧
          ext.verify e.allowMalleable k e.operation.content s = true) ∧
       ∀ j, j < i → ∀ k, keys[j]? = some k →
         ext.verify e.allowMalleable k e.operation.content s = false)) ∧
    ((∀ k ∈ keys, ext.verify e.allowMalleable k e.operation.content s = false) →
      ((e.validateWithPrev ext prev).2 = none ∧
       AuditError.trustViolation e.cid ∈ (e.validateWithPrev ext prev).1)) ∧
    (∀ S esa, e.nullifies none S esa = false) ∧
    (∀ a S, e.nullifies (some a) S none = true ↔
      e.createdAt ≤ S.createdAt + RECOVERY_WINDOW) := by
  have hcheck : e.checkSig ext = fun k =>
      ext.verify e.allowMalleable k e.operation.content s := by
    funext k; unfold LogEntry.checkSig; rw [hs]
  refine ⟨by simp [LogEntry.allowMalleable], ?_, ?_, ?_, ?_⟩
  · intro i
    rw [signerAuthority_validateWithPrev hk, hcheck, enumerateFind_eq_some_iff]
  · intro hall
    have hnone : enumerateFind (e.checkSig ext) keys = none := by
      rw [hcheck, enumerateFind_eq_none_iff]
      exact hall
    exact ⟨by rw [signerAuthority_validateWithPrev hk, hnone],
      (mem_tv_validateWithPrev hk).mpr hnone⟩
  · intro S esa; simp [LogEntry.nullifies]
  · intro a S; simp [LogEntry.nullifies]

/-- Witness for the amended C3 at the sample entry `aW` with prev `gW`:
every key verifies under `extW`, so the signer authority is index 0. -/
theorem signer_authority_smallest_index_witness :
    (aW.validateWithPrev extW (some gW)).2 = some 0 :=
  ((signer_authority_smallest_index extW aW (some gW) dataW.rotationKeys [0, 0, 0]
      (by decide) (by decide)).2.1 0).mpr ⟨⟨"k0", by decide, by decide⟩, by omega⟩

/-! ## C9: encoding failure suppresses the trust check (corrected) -/

/-- Counterexample for C9 as stated: on a change operation with an
empty rotation-key list and an undecodable signature, the validator
reports `TrustViolation` in addition to `InvalidSignatureEncoding`,
and the signer authority is unknown rather than index 0. -/
theorem encoding_failure_trust_violation_counterexample :
    AuditError.invalidSignatureEncoding eEmptyKeysW.cid ∈
      (eEmptyKeysW.validateWithPrev extW none).1 ∧
    AuditError.trustViolation eEmptyKeysW.cid ∈
      (eEmptyKeysW.validateWithPrev extW none).1 ∧
    (eEmptyKeysW.validateWithPrev extW none).2 = none := by decide

/-- C9 (amended): for an entry whose signature fails to decode and
whose applicable rotation-key list is non-empty, the validator reports
`InvalidSignatureEncoding`, does not additionally report
`TrustViolation`, and assigns signer authority index 0 (the first
rotation key is considered to have signed). -/
theorem encoding_failure_no_trust_violation (ext : Ext) (e : LogEntry)
    (prev : Option LogEntry) (keys : List String)
    (hd : e.decodedSig = none) (hk : signerKeys e prev = .ok keys) (hne : keys ≠ []) :
    AuditError.invalidSignatureEncoding e.cid ∈ (e.validateWithPrev ext prev).1 ∧
    AuditError.trustViolation e.cid ∉ (e.validateWithPrev ext prev).1 ∧
    (e.validateWithPrev ext prev).2 = some 0 := by
  obtain ⟨k, ks, rfl⟩ := List.exists_cons_of_ne_nil hne
  have hcheck : e.checkSig ext k = true := by
    unfold LogEntry.checkSig; rw [hd]
  have hfind : enumerateFind (e.checkSig ext) (k :: ks) = some 0 :=
    enumerateFind_cons_pos hcheck ks
  refine ⟨mem_ise_validateWithPrev.mpr hd, ?_, ?_⟩
  · rw [mem_tv_validateWithPrev hk, hfind]
    simp
  · rw [signerAuthority_validateWithPrev hk, hfind]

/-- Witness for the amended C9 at the sample entry `eEncW`: an
undecodable post-cutoff signature with two rotation keys present. -/
theorem encoding_failure_no_trust_violation_witness :
    AuditError.invalidSignatureEncoding eEncW.cid ∈
      (eEncW.validateWithPrev extW none).1 ∧
    AuditError.trustViolation eEncW.cid ∉ (eEncW.validateWithPrev extW none).1 ∧
    (eEncW.validateWithPrev extW none).2 = some 0 :=
  encoding_failure_no_trust_violation extW eEncW none dataW.rotationKeys
    (by decide) (by decide) (by decide)

/-! ## C8: the validator is deterministic up to settlement order -/

/-- C8: validating the same `(did, entries)` input twice yields the
same result even though the Rust settlement pass iterates a `HashMap`
in an unspecified order: for any two admissible iteration orders (any
permutations of the final graph), either both runs return `Ok` or both
return an error list, and the two error lists are equal as sets of
`AuditError` values. -/
theorem validateWith_eq_ite (σ : Graph → Graph) (ext : Ext) (log : AuditLog) :
    AuditLog.validateWith σ ext log =
      (if (genesisErrors ext log.did log.entries ++
            (runEntries ext log.did log.entries).1 ++
            settleErrors (σ (runEntries ext log.did log.entries).2)).isEmpty
       then .ok ()
       else .error (genesisErrors ext log.did log.entries ++
            (runEntries ext log.did log.entries).1 ++
            settleErrors (σ (runEntries ext log.did log.entries).2))) := rfl

theorem validator_determinism (σ₁ σ₂ : Graph → Graph)
    (h₁ : ∀ g, List.Perm (σ₁ g) g) (h₂ : ∀ g, List.Perm (σ₂ g) g) (ext : Ext) (log : AuditLog) :
    ((AuditLog.validateWith σ₁ ext log = .ok ()) ↔
      (AuditLog.validateWith σ₂ ext log = .ok ())) ∧
    (∀ l₁ l₂, AuditLog.validateWith σ₁ ext log = .error l₁ →
      AuditLog.validateWith σ₂ ext log = .error l₂ →
      ∀ er, er ∈ l₁ ↔ er ∈ l₂) := by
  have hsettle : List.Perm
      (settleErrors (σ₁ (runEntries ext log.did log.entries).2))
      (settleErrors (σ₂ (runEntries ext log.did log.entries).2)) := by
    unfold settleErrors
    exact ((h₁ _).flatMap_right _).trans (((h₂ _).flatMap_right _).symm)
  have hall : List.Perm
      (genesisErrors ext log.did log.entries ++
        (runEntries ext log.did log.entries).1 ++
        settleErrors (σ₁ (runEntries ext log.did log.entries).2))
      (genesisErrors ext log.did log.entries ++
        (runEntries ext log.did log.entries).1 ++
        settleErrors (σ₂ (runEntries ext log.did log.entries).2)) :=
    List.Perm.append_left _ hsettle
  rw [validateWith_eq_ite σ₁, validateWith_eq_ite σ₂]
  constructor
  · constructor <;> intro hok
    · split at hok
      · next hemp =>
          rw [if_pos]
          rw [List.isEmpty_iff] at hemp ⊢
          exact List.Perm.eq_nil ((hemp ▸ hall).symm)
      · cases hok
    · split at hok
      · next hemp =>
          rw [if_pos]
          rw [List.isEmpty_iff] at hemp ⊢
          exact List.Perm.eq_nil (hemp ▸ hall)
      · cases hok
  · intro l₁ l₂ he₁ he₂ er
    split at he₁
    · cases he₁
    · split at he₂
      · cases he₂
      · cases he₁; cases he₂
        exact hall.mem_iff

/-- Witness for C8: the insertion order and the reversed order are both
admissible settlement orders, and on the sample valid chain both runs
return `Ok`. -/
theorem validator_determinism_witness :
    (AuditLog.validateWith id extW ⟨"d", [gW, aW, bW]⟩ = .ok ()) ↔
      (AuditLog.validateWith List.reverse extW ⟨"d", [gW, aW, bW]⟩ = .ok ()) :=
  (validator_determinism id List.reverse (fun g => List.Perm.refl g)
    (fun g => List.reverse_perm g) extW ⟨"d", [gW, aW, bW]⟩).1

/-! ## Lemmas for unfolding validator runs -/

theorem runFrom_nil (ext : Ext) (did : String) (entries : List LogEntry) (i : Nat)
    (g : Graph) : runFrom ext did entries i [] g = ([], g) := rfl

theorem runFrom_cons (ext : Ext) (did : String) (entries : List LogEntry) (i : Nat)
    (e : LogEntry) (rest : List LogEntry) (g : Graph) :
    runFrom ext did entries i (e :: rest) g =
      ((stepEntry ext did entries i e g).1 ++
        (runFrom ext did entries (i + 1) rest (stepEntry ext did entries i e g).2).1,
       (runFrom ext did entries (i + 1) rest (stepEntry ext did entries i e g).2).2) := rfl

theorem validateWith_ok_iff (σ : Graph → Graph) (ext : Ext) (log : AuditLog) :
    AuditLog.validateWith σ ext log = .ok () ↔
      (genesisErrors ext log.did log.entries = [] ∧
       (runEntries ext log.did log.entries).1 = [] ∧
       settleErrors (σ (runEntries ext log.did log.entries).2) = []) := by
  rw [validateWith_eq_ite]
  split
  · next h =>
      rw [List.isEmpty_iff, List.append_eq_nil, List.append_eq_nil] at h
      exact iff_of_true rfl ⟨h.1.1, h.1.2, h.2⟩
  · next h =>
      rw [List.isEmpty_iff, List.append_eq_nil, List.append_eq_nil] at h
      exact iff_of_false (by simp) (fun hc => h ⟨⟨hc.1, hc.2.1⟩, hc.2.2⟩)

/-! ## C5: swapping the first two entries of a valid chain -/

/-- C5: for every valid 3-entry chain of change operations
(genesis, change, change) with pairwise distinct CIDs, validating the
list with positions 0 and 1 swapped (prev pointers unchanged) yields
exactly the errors `GenesisOperationNotCreate`,
`PrevReferencesFuture{cid = entry at position 0, prev = entry at
position 1}` and `NonGenesisCreate{cid = entry at position 1}`, in this
order and no others.  (Distinct CIDs hold for any chain produced by a
collision-free hash.) -/
theorem order_swap_three_errors (ext : Ext) (did : String) (g a b : LogEntry)
    (dg da db2 : PlcData) (xg xa xb : List (String × String))
    (hg : g.operation.content = .change dg none xg)
    (ha : a.operation.content = .change da (some g.cid) xa)
    (hb : b.operation.content = .change db2 (some a.cid) xb)
    (hga : g.cid ≠ a.cid) (hgb : g.cid ≠ b.cid) (hab : a.cid ≠ b.cid)
    (hvalid : AuditLog.validate ext ⟨did, [g, a, b]⟩ = .ok ()) :
    AuditLog.validate ext ⟨did, [a, g, b]⟩ =
      .error [.genesisOperationNotCreate,
              .prevReferencesFuture a.cid g.cid,
              .nonGenesisCreate g.cid] := by
  have p0 : prevResult [g, a, b] 0 g = .ok none := by
    simp [prevResult, hg]
  have p1 : prevResult [g, a, b] 1 a = .ok (some g) := by
    simp [prevResult, ha, findPrev, Except.map]
  have p2 : prevResult [g, a, b] 2 b = .ok (some a) := by
    simp [prevResult, hb, findPrev, hga, Except.map]
  rw [AuditLog.validate] at hvalid
  obtain ⟨hgen, hrun, hset⟩ := (validateWith_ok_iff id ext ⟨did, [g, a, b]⟩).mp hvalid
  simp only [id_eq] at hset
  cases hgn : g.nullified <;> cases han : a.nullified <;> cases hbn : b.nullified <;>
    simp [runEntries, runFrom_cons, runFrom_nil, stepEntry, p0, p1, p2,
      processGraph, Graph.findNode, Graph.updateNode, settleErrors,
      hgn, han, hbn, hga, hab, List.find?] at hrun hset
  obtain ⟨hsg, hvpg, hsa, hvpa, hsb, hvpb⟩ := hrun
  have q0 : prevResult [a, g, b] 0 a = .error (.prevReferencesFuture a.cid g.cid) := by
    simp [prevResult, ha, findPrev, Ne.symm hga, Except.map]
  have q1 : prevResult [a, g, b] 1 g = .ok none := by
    simp [prevResult, hg]
  have q2 : prevResult [a, g, b] 2 b = .ok (some a) := by
    simp [prevResult, hb, findPrev, Except.map]
  rw [AuditLog.validate, validateWith_eq_ite]
  simp [genesisErrors, ha, runEntries, runFrom_cons, runFrom_nil, stepEntry, q0, q1, q2,
    processGraph, Graph.findNode, Graph.updateNode, settleErrors,
    hgn, han, hbn, hsg, hvpg, hsa, hsb, hvpb, List.find?]

/-- Witness for C5 at the sample chain `gW → aW → bW` under `extW`. -/
theorem order_swap_three_errors_witness :
    AuditLog.validate extW ⟨"d", [aW, gW, bW]⟩ =
      .error [.genesisOperationNotCreate,
              .prevReferencesFuture aW.cid gW.cid,
              .nonGenesisCreate gW.cid] :=
  order_swap_three_errors extW "d" gW aW bW dataW dataW dataW [] [] []
    rfl rfl rfl (by decide) (by decide) (by decide) (by decide)

/-! ## C6: an operation chaining from a tombstone -/

/-- C6: every non-genesis entry (a change or a tombstone — the two
variants that declare a prev) whose declared prev is a tombstone raises
`OperationAfterDeactivation{cid = entry, prev = tombstone}` (first
conjunct, at the per-entry validation); and appending to a valid chain
`genesis → change → tombstone` a well-formed active change entry whose
prev is the tombstone yields exactly that single error (second
conjunct). -/
theorem operation_after_deactivation (ext : Ext) (did : String) (g c t d : LogEntry)
    (dg dc dd : PlcData) (xg xc xd : List (String × String))
    (hg : g.operation.content = .change dg none xg)
    (hc : c.operation.content = .change dc (some g.cid) xc)
    (ht : t.operation.content = .tombstone c.cid)
    (hd : d.operation.content = .change dd (some t.cid) xd)
    (hgc : g.cid ≠ c.cid) (hgt : g.cid ≠ t.cid) (hct : c.cid ≠ t.cid)
    (hvalid : AuditLog.validate ext ⟨did, [g, c, t]⟩ = .ok ())
    (hcid : ext.cidOf d.operation = d.cid) (hdid : d.did = did)
    (hdec : d.decodedSig ≠ none) (hdn : d.nullified = false)
    (htime : ¬ d.createdAt < t.createdAt) :
    (∀ (ext2 : Ext) (e p : LogEntry) (q : Nat),
      ((∃ de pre xe, e.operation.content = .change de pre xe) ∨
       (∃ q2, e.operation.content = .tombstone q2)) →
      p.operation.content = .tombstone q →
      AuditError.operationAfterDeactivation e.cid p.cid ∈
        (e.validateWithPrev ext2 (some p)).1) ∧
    AuditLog.validate ext ⟨did, [g, c, t, d]⟩ =
      .error [.operationAfterDeactivation d.cid t.cid] := by
  have general : ∀ (ext2 : Ext) (e p : LogEntry) (q : Nat),
      ((∃ de pre xe, e.operation.content = .change de pre xe) ∨
       (∃ q2, e.operation.content = .tombstone q2)) →
      p.operation.content = .tombstone q →
      AuditError.operationAfterDeactivation e.cid p.cid ∈
        (e.validateWithPrev ext2 (some p)).1 := by
    intro ext2 e p q he hp
    have hkeys : signerKeys e (some p) =
        .error (.operationAfterDeactivation e.cid p.cid) := by
      rcases he with ⟨de, pre, xe, he⟩ | ⟨q2, he⟩ <;> simp [signerKeys, he, hp]
    rw [validateWithPrev_eq, hkeys]
    simp
  refine ⟨general, ?_⟩
  have p0 : prevResult [g, c, t] 0 g = .ok none := by
    simp [prevResult, hg]
  have p1 : prevResult [g, c, t] 1 c = .ok (some g) := by
    simp [prevResult, hc, findPrev, Except.map]
  have p2 : prevResult [g, c, t] 2 t = .ok (some c) := by
    simp [prevResult, ht, findPrev, hgc, Except.map]
  rw [AuditLog.validate] at hvalid
  obtain ⟨hgen0, hrun, hset⟩ := (validateWith_ok_iff id ext ⟨did, [g, c, t]⟩).mp hvalid
  simp only [id_eq] at hset
  cases hgn : g.nullified <;> cases hcn : c.nullified <;> cases htn : t.nullified <;>
    simp [runEntries, runFrom_cons, runFrom_nil, stepEntry, p0, p1, p2,
      processGraph, Graph.findNode, Graph.updateNode, settleErrors,
      hgn, hcn, htn, hgc, hgt, hct, List.find?] at hrun hset
  obtain ⟨hsg, hvpg, hsc, hvpc, hst, hvpt⟩ := hrun
  have q0 : prevResult [g, c, t, d] 0 g = .ok none := by
    simp [prevResult, hg]
  have q1 : prevResult [g, c, t, d] 1 c = .ok (some g) := by
    simp [prevResult, hc, findPrev, Except.map]
  have q2 : prevResult [g, c, t, d] 2 t = .ok (some c) := by
    simp [prevResult, ht, findPrev, hgc, Except.map]
  have q3 : prevResult [g, c, t, d] 3 d = .ok (some t) := by
    simp [prevResult, hd, findPrev, hgt, hct, Except.map]
  have hvpd : (d.validateWithPrev ext (some t)).1 =
      [.operationAfterDeactivation d.cid t.cid] := by
    rw [validateWithPrev_eq]
    have hkeys : signerKeys d (some t) =
        .error (.operationAfterDeactivation d.cid t.cid) := by
      simp [signerKeys, hd, ht]
    rw [hkeys]
    cases hds : d.decodedSig with
    | none => exact absurd hds hdec
    | some s => simp [htime]
  have hsd : d.validateSelf ext did = [] := by
    simp [LogEntry.validateSelf, hcid, hdid]
  have hdidg : ext.deriveDid g.operation = did := by
    simp [genesisErrors, hg] at hgen0
    exact hgen0
  rw [AuditLog.validate, validateWith_eq_ite]
  simp [genesisErrors, hg, hdidg, runEntries, runFrom_cons, runFrom_nil, stepEntry,
    q0, q1, q2, q3, hvpd, hsd,
    processGraph, Graph.findNode, Graph.updateNode, settleErrors,
    hgn, hcn, htn, hdn, hgc, hgt, hct,
    hsg, hvpg, hsc, hvpc, hst, hvpt, hgen0, List.find?]

/-- Witness for C6 at the sample chain `gW → aW → tW` extended by the
change entry `dWpost` whose prev is the tombstone `tW`. -/
theorem operation_after_deactivation_witness :
    AuditLog.validate extW ⟨"d", [gW, aW, tW, dWpost]⟩ =
      .error [.operationAfterDeactivation dWpost.cid tW.cid] :=
  (operation_after_deactivation extW "d" gW aW tW dWpost dataW dataW dataW [] [] []
    rfl rfl rfl rfl (by decide) (by decide) (by decide) (by decide) (by decide)
    (by decide) (by decide) (by decide) (by decide)).2

/-! ## Lemmas about `Except` and `mapM` -/

theorem except_bind_ok {ε α β : Type _} (a : α) (f : α → Except ε β) :
    (Except.ok a >>= f) = f a := rfl

theorem except_bind_error {ε α β : Type _} (e : ε) (f : α → Except ε β) :
    ((Except.error e : Except ε α) >>= f) = .error e := rfl

theorem except_bind_pure_ok {ε α β : Type _} {x : Except ε α} {g : α → β} {b : β}
    (h : (x >>= fun a => pure (g a)) = .ok b) : ∃ a, x = .ok a ∧ g a = b := by
  cases x with
  | error e => rw [except_bind_error] at h; cases h
  | ok a =>
      rw [except_bind_ok] at h
      cases h
      exact ⟨a, rfl, rfl⟩

theorem mapM_except_ok_mem {ε α β : Type _} {f : α → Except ε β} {l : List α}
    {ys : List β} (h : l.mapM f = .ok ys) {y : β} (hy : y ∈ ys) :
    ∃ x ∈ l, f x = .ok y := by
  induction l generalizing ys with
  | nil =>
      rw [List.mapM_nil] at h
      cases h
      cases hy
  | cons a l ih =>
      rw [List.mapM_cons] at h
      cases hfa : f a with
      | error e => rw [hfa, except_bind_error] at h; cases h
      | ok b =>
          rw [hfa, except_bind_ok] at h
          cases hml : l.mapM f with
          | error e => rw [hml, except_bind_error] at h; cases h
          | ok bs =>
              rw [hml, except_bind_ok] at h
              cases h
              rcases List.mem_cons.mp hy with rfl | hmem
              · exact ⟨a, List.mem_cons_self a l, hfa⟩
              · obtain ⟨x, hx, hfx⟩ := ih hml hmem
                exact ⟨x, List.mem_cons_of_mem a hx, hfx⟩

/-! ## C4: reassembly CID integrity of every read path -/

theorem assemble_ok_cid {ext : Ext} {h : HydratedEntry} {e : LogEntry}
    (hok : h.assemble ext = .ok e) :
    ext.cidOf e.operation = h.entry.cid ∧ e.cid = h.entry.cid := by
  unfold HydratedEntry.assemble at hok
  cases hc : h.assembleContent with
  | error s => rw [hc, except_bind_error] at hok; cases hok
  | ok content =>
      rw [hc, except_bind_ok] at hok
      dsimp only at hok
      split at hok
      · next hcid =>
          cases hok
          exact ⟨hcid, rfl⟩
      · cases hok

/-- C4: a reassembled row is returned only if the CID recomputed from
the reassembled signed operation equals the stored `cid` (first
conjunct); consequently every entry returned by the three read paths —
last-active entry, per-DID audit log, export — satisfies
`cidOf(entry.operation) = entry.cid` (remaining conjuncts). -/
theorem reassembly_cid_integrity (ext : Ext) :
    (∀ (h : HydratedEntry) (e : LogEntry), h.assemble ext = .ok e →
      ext.cidOf e.operation = h.entry.cid ∧ e.cid = h.entry.cid) ∧
    (∀ (db : MirrorDb) (did : String) (e : LogEntry),
      db.getLastActiveEntry ext did = .ok (some e) →
      ext.cidOf e.operation = e.cid) ∧
    (∀ (db : MirrorDb) (did : String) (l : List LogEntry) (e : LogEntry),
      db.getAuditLog ext did = .ok l → e ∈ l → ext.cidOf e.operation = e.cid) ∧
    (∀ (db : MirrorDb) (params : ExportParams) (l : List LogEntry) (e : LogEntry),
      db.exportEntries ext params = .ok l → e ∈ l →
      ext.cidOf e.operation = e.cid) := by
  refine ⟨fun h e hok => assemble_ok_cid hok, ?_, ?_, ?_⟩
  · intro db did e hok
    unfold MirrorDb.getLastActiveEntry at hok
    dsimp only at hok
    split at hok
    · cases hok
    · next ir _ =>
        cases ha : ((db.hydrate (db.viewRow did ir.1 ir.2)).assemble ext) with
        | error s => rw [ha] at hok; cases hok
        | ok e2 =>
            rw [ha] at hok
            cases hok
            obtain ⟨h1, h2⟩ := assemble_ok_cid ha
            rw [h1, h2]
  · intro db did l e hok hmem
    obtain ⟨x, -, hfx⟩ := mapM_except_ok_mem hok hmem
    obtain ⟨h1, h2⟩ := assemble_ok_cid hfx
    rw [h1, h2]
  · intro db params l e hok hmem
    obtain ⟨x, -, hfx⟩ := mapM_except_ok_mem hok hmem
    obtain ⟨h1, h2⟩ := assemble_ok_cid hfx
    rw [h1, h2]

/-- Witness for C4: the sample legacy create row reassembles with
matching CID, and the audit-log read path of the imported sample store
returns an entry whose recomputed CID equals its stored CID. -/
theorem reassembly_cid_integrity_witness :
    (extW.cidOf lW.operation = hydLW.entry.cid ∧ lW.cid = hydLW.entry.cid) ∧
    extW.cidOf lW.operation = lW.cid :=
  ⟨(reassembly_cid_integrity extW).1 hydLW lW (by decide),
   (reassembly_cid_integrity extW).2.2.1 dbW "e" [lW] lW (by decide) (by decide)⟩

/-! ## C10: the export read path returns nothing without `after` -/

/-- C10: when the `after` query parameter is absent, the SQL condition
`created_at > NULL` holds for no row, so `/export` returns an empty
list regardless of the store contents; a non-empty export response
implies `after` was supplied. -/
theorem export_empty_without_after (ext : Ext) (db : MirrorDb) :
    (∀ count, db.getLogEntries count none = []) ∧
    (∀ params : ExportParams, params.after = none →
      db.exportEntries ext params = .ok []) ∧
    (∀ (params : ExportParams) (l : List LogEntry),
      db.exportEntries ext params = .ok l → l ≠ [] → params.after ≠ none) := by
  have hrows : ∀ count, db.getLogEntries count none = [] := by
    intro count
    unfold MirrorDb.getLogEntries
    have hfilter : db.plcLog.enum.filter
        (fun ir => sqlCreatedAfter ir.2.createdAt none) = [] := by
      apply List.filter_eq_nil_iff.mpr
      intro ir hmem
      simp [sqlCreatedAfter]
    rw [hfilter]
    simp [sortByCreatedAsc, sortBy]
  have hexp : ∀ params : ExportParams, params.after = none →
      db.exportEntries ext params = .ok [] := by
    intro params hafter
    unfold MirrorDb.exportEntries
    rw [hafter, hrows]
    simp [List.mapM_nil]
    rfl
  refine ⟨hrows, hexp, ?_⟩
  intro params l hok hne hafter
  rw [hexp params hafter] at hok
  cases hok
  exact hne rfl

/-- Witness for C10: exporting the populated sample store with `after`
absent yields the empty list even though the store holds four rows. -/
theorem export_empty_without_after_witness :
    dbW.exportEntries extW ⟨some 100, none⟩ = .ok [] ∧ dbW.plcLog.length = 4 :=
  ⟨(export_empty_without_after extW dbW).2.1 ⟨some 100, none⟩ rfl, by decide⟩

/-! ## C7 groundwork: the import only appends -/

theorem dbExtends_refl (db : MirrorDb) : DbExtends db db :=
  ⟨⟨[], by simp⟩, ⟨[], by simp⟩, ⟨[], by simp⟩, ⟨[], by simp⟩,
   ⟨[], by simp⟩, ⟨[], by simp⟩, ⟨[], by simp⟩⟩

theorem dbExtends_trans {a b c : MirrorDb} (h1 : DbExtends a b) (h2 : DbExtends b c) :
    DbExtends a c := by
  obtain ⟨⟨i1, hi1⟩, ⟨k1, hk1⟩, ⟨p1, hp1⟩, ⟨l1, hl1⟩, ⟨r1, hr1⟩, ⟨v1, hv1⟩, ⟨s1, hs1⟩⟩ := h1
  obtain ⟨⟨i2, hi2⟩, ⟨k2, hk2⟩, ⟨p2, hp2⟩, ⟨l2, hl2⟩, ⟨r2, hr2⟩, ⟨v2, hv2⟩, ⟨s2, hs2⟩⟩ := h2
  exact ⟨⟨i1 ++ i2, by rw [hi2, hi1, List.append_assoc]⟩,
         ⟨k1 ++ k2, by rw [hk2, hk1, List.append_assoc]⟩,
         ⟨p1 ++ p2, by rw [hp2, hp1, List.append_assoc]⟩,
         ⟨l1 ++ l2, by rw [hl2, hl1, List.append_assoc]⟩,
         ⟨r1 ++ r2, by rw [hr2, hr1, List.append_assoc]⟩,
         ⟨v1 ++ v2, by rw [hv2, hv1, List.append_assoc]⟩,
         ⟨s1 ++ s2, by rw [hs2, hs1, List.append_assoc]⟩⟩

theorem didPresent_stable {db db2 : MirrorDb} {v : String}
    (h : didPresent db v) (hx : DbExtends db db2) : didPresent db2 v := by
  obtain ⟨i, hi⟩ := h
  obtain ⟨t, ht⟩ := hx.identity
  exact ⟨i, by rw [ht]; exact enumerateFind_append_of_some hi t⟩

theorem keyPresent_stable {db db2 : MirrorDb} {k : String}
    (h : keyPresent db k) (hx : DbExtends db db2) : keyPresent db2 k := by
  obtain ⟨i, hi⟩ := h
  obtain ⟨t, ht⟩ := hx.key
  exact ⟨i, by rw [ht]; exact enumerateFind_append_of_some hi t⟩

theorem pdsPresent_stable {db db2 : MirrorDb} {ep : String}
    (h : pdsPresent db ep) (hx : DbExtends db db2) : pdsPresent db2 ep := by
  obtain ⟨i, hi⟩ := h
  obtain ⟨t, ht⟩ := hx.atprotoPds
  exact ⟨i, by rw [ht]; exact enumerateFind_append_of_some hi t⟩

theorem findEntry_stable {db db2 : MirrorDb} {c : Nat} {j : Nat}
    (h : db.findEntry c = some j) (hx : DbExtends db db2) : db2.findEntry c = some j := by
  obtain ⟨t, ht⟩ := hx.plcLog
  rw [MirrorDb.findEntry, ht]
  exact enumerateFind_append_of_some h t

theorem rotPresent_stable {db db2 : MirrorDb} {e a : Nat}
    (h : rotPresent db e a) (hx : DbExtends db db2) : rotPresent db2 e a := by
  obtain ⟨t, ht⟩ := hx.rotationKeys
  rw [rotPresent, ht, List.any_append]
  rw [rotPresent] at h
  rw [h]
  simp

theorem vmPresent_stable {db db2 : MirrorDb} {e : Nat} {s : String}
    (h : vmPresent db e s) (hx : DbExtends db db2) : vmPresent db2 e s := by
  obtain ⟨t, ht⟩ := hx.verificationMethods
  rw [vmPresent, ht, List.any_append]
  rw [vmPresent] at h
  rw [h]
  simp

theorem svcPresent_stable {db db2 : MirrorDb} {e : Nat} {s : String}
    (h : svcPresent db e s) (hx : DbExtends db db2) : svcPresent db2 e s := by
  obtain ⟨t, ht⟩ := hx.services
  rw [svcPresent, ht, List.any_append]
  rw [svcPresent] at h
  rw [h]
  simp

/-! ## C7 groundwork: single-statement upsert lemmas -/

theorem insertDid_facts (db : MirrorDb) (v : String) :
    DbExtends db (db.insertDid v).2 ∧ didPresent (db.insertDid v).2 v := by
  unfold MirrorDb.insertDid
  cases h : enumerateFind (fun x => x = v) db.identity with
  | some i => exact ⟨dbExtends_refl db, ⟨i, h⟩⟩
  | none =>
      refine ⟨⟨⟨[v], rfl⟩, ⟨[], by simp⟩, ⟨[], by simp⟩, ⟨[], by simp⟩,
        ⟨[], by simp⟩, ⟨[], by simp⟩, ⟨[], by simp⟩⟩, ?_⟩
      exact ⟨db.identity.length, enumerateFind_append_singleton h (by simp)⟩

theorem insertDid_preserves {db : MirrorDb} {v : String} (h : didPresent db v) :
    (db.insertDid v).2 = db := by
  obtain ⟨i, hi⟩ := h
  unfold MirrorDb.insertDid
  rw [hi]

theorem insertKey_facts (db : MirrorDb) (k : String) :
    DbExtends db (db.insertKey k).2 ∧ keyPresent (db.insertKey k).2 k := by
  unfold MirrorDb.insertKey
  cases h : enumerateFind (fun x => x = k) db.key with
  | some i => exact ⟨dbExtends_refl db, ⟨i, h⟩⟩
  | none =>
      refine ⟨⟨⟨[], by simp⟩, ⟨[k], rfl⟩, ⟨[], by simp⟩, ⟨[], by simp⟩,
        ⟨[], by simp⟩, ⟨[], by simp⟩, ⟨[], by simp⟩⟩, ?_⟩
      exact ⟨db.key.length, enumerateFind_append_singleton h (by simp)⟩

theorem insertKey_preserves {db : MirrorDb} {k : String} (h : keyPresent db k) :
    (db.insertKey k).2 = db := by
  obtain ⟨i, hi⟩ := h
  unfold MirrorDb.insertKey
  rw [hi]

theorem insertAtprotoPds_facts (db : MirrorDb) (ep : String) :
    DbExtends db (db.insertAtprotoPds ep).2 ∧ pdsPresent (db.insertAtprotoPds ep).2 ep := by
  unfold MirrorDb.insertAtprotoPds
  cases h : enumerateFind (fun x => x = ep) db.atprotoPds with
  | some i => exact ⟨dbExtends_refl db, ⟨i, h⟩⟩
  | none =>
      refine ⟨⟨⟨[], by simp⟩, ⟨[], by simp⟩, ⟨[ep], rfl⟩, ⟨[], by simp⟩,
        ⟨[], by simp⟩, ⟨[], by simp⟩, ⟨[], by simp⟩⟩, ?_⟩
      exact ⟨db.atprotoPds.length, enumerateFind_append_singleton h (by simp)⟩

theorem insertAtprotoPds_preserves {db : MirrorDb} {ep : String} (h : pdsPresent db ep) :
    (db.insertAtprotoPds ep).2 = db := by
  obtain ⟨i, hi⟩ := h
  unfold MirrorDb.insertAtprotoPds
  rw [hi]

/-! ## C7 groundwork: `plc_log` and satellite inserts -/

theorem insertEntry_ok_facts {db : MirrorDb} {cid identityId : Nat} {createdAt : Int}
    {nullified : Bool} {type : String} {aka : Option (List String)}
    {signing pds : Option Nat} {prevCid : Option Nat} {sig : String}
    {i : Nat} {db2 : MirrorDb}
    (h : db.insertEntry cid identityId createdAt nullified type aka signing pds
        prevCid sig = .ok (i, db2)) :
    DbExtends db db2 ∧ db2.findEntry cid = some i ∧
      (∀ c, prevCid = some c → ∃ j, db.findEntry c = some j) := by
  unfold MirrorDb.insertEntry at h
  rcases prevCid with _ | c <;> dsimp only at h
  · cases hf : db.findEntry cid <;> rw [hf] at h <;> cases h
    · exact ⟨⟨⟨[], by simp⟩, ⟨[], by simp⟩, ⟨[], by simp⟩, ⟨_, rfl⟩,
        ⟨[], by simp⟩, ⟨[], by simp⟩, ⟨[], by simp⟩⟩,
        enumerateFind_append_singleton hf (by simp), fun c hc => by cases hc⟩
    · exact ⟨dbExtends_refl db, hf, fun c hc => by cases hc⟩
  · cases hj : db.findEntry c <;> rw [hj] at h <;> dsimp only at h
    · cases h
    · have hprev : ∀ c2, (some c : Option Nat) = some c2 →
          ∃ j, db.findEntry c2 = some j := by
        intro c2 hc2
        cases hc2
        exact ⟨_, hj⟩
      cases hf : db.findEntry cid <;> rw [hf] at h <;> cases h
      · exact ⟨⟨⟨[], by simp⟩, ⟨[], by simp⟩, ⟨[], by simp⟩, ⟨_, rfl⟩,
          ⟨[], by simp⟩, ⟨[], by simp⟩, ⟨[], by simp⟩⟩,
          enumerateFind_append_singleton hf (by simp), hprev⟩
      · exact ⟨dbExtends_refl db, hf, hprev⟩

theorem insertEntry_noop {db : MirrorDb} {cid identityId : Nat} {createdAt : Int}
    {nullified : Bool} {type : String} {aka : Option (List String)}
    {signing pds : Option Nat} {prevCid : Option Nat} {sig : String} {i : Nat}
    (hfind : db.findEntry cid = some i)
    (hprev : ∀ c, prevCid = some c → ∃ j, db.findEntry c = some j) :
    db.insertEntry cid identityId createdAt nullified type aka signing pds
      prevCid sig = .ok (i, db) := by
  unfold MirrorDb.insertEntry
  rcases hpc : prevCid with _ | c
  · dsimp only
    rw [hfind]
  · obtain ⟨j, hj⟩ := hprev c hpc
    dsimp only
    rw [hj]
    dsimp only
    rw [hfind]

theorem insertRotationKey_facts (db : MirrorDb) (e a : Nat) (k : String) :
    DbExtends db (db.insertRotationKey e a k) ∧
    keyPresent (db.insertRotationKey e a k) k ∧
    rotPresent (db.insertRotationKey e a k) e a := by
  unfold MirrorDb.insertRotationKey
  obtain ⟨hx1, hk1⟩ := insertKey_facts db k
  cases hc : (db.insertKey k).2.rotationKeys.any
      (fun x => decide (x.1 = e ∧ x.2.1 = a)) with
  | true => simp only [hc, if_true]; exact ⟨hx1, hk1, hc⟩
  | false =>
      simp only [hc, Bool.false_eq_true, if_false]
      refine ⟨dbExtends_trans hx1
        ⟨⟨[], by simp⟩, ⟨[], by simp⟩, ⟨[], by simp⟩, ⟨[], by simp⟩,
         ⟨_, rfl⟩, ⟨[], by simp⟩, ⟨[], by simp⟩⟩, ?_, ?_⟩
      · obtain ⟨i, hi⟩ := hk1
        exact ⟨i, hi⟩
      · rw [rotPresent]
        simp

theorem insertRotationKey_noop {db : MirrorDb} {e a : Nat} {k : String}
    (hk : keyPresent db k) (hr : rotPresent db e a) :
    db.insertRotationKey e a k = db := by
  unfold MirrorDb.insertRotationKey
  dsimp only
  rw [insertKey_preserves hk]
  rw [rotPresent] at hr
  rw [hr]
  simp

theorem insertVerificationMethod_facts (db : MirrorDb) (e : Nat) (s k : String) :
    DbExtends db (db.insertVerificationMethod e s k) ∧
    keyPresent (db.insertVerificationMethod e s k) k ∧
    vmPresent (db.insertVerificationMethod e s k) e s := by
  unfold MirrorDb.insertVerificationMethod
  obtain ⟨hx1, hk1⟩ := insertKey_facts db k
  cases hc : (db.insertKey k).2.verificationMethods.any
      (fun x => decide (x.1 = e ∧ x.2.1 = s)) with
  | true => simp only [hc, if_true]; exact ⟨hx1, hk1, hc⟩
  | false =>
      simp only [hc, Bool.false_eq_true, if_false]
      refine ⟨dbExtends_trans hx1
        ⟨⟨[], by simp⟩, ⟨[], by simp⟩, ⟨[], by simp⟩, ⟨[], by simp⟩,
         ⟨[], by simp⟩, ⟨_, rfl⟩, ⟨[], by simp⟩⟩, ?_, ?_⟩
      · obtain ⟨i, hi⟩ := hk1
        exact ⟨i, hi⟩
      · rw [vmPresent]
        simp

theorem insertVerificationMethod_noop {db : MirrorDb} {e : Nat} {s k : String}
    (hk : keyPresent db k) (hv : vmPresent db e s) :
    db.insertVerificationMethod e s k = db := by
  unfold MirrorDb.insertVerificationMethod
  dsimp only
  rw [insertKey_preserves hk]
  rw [vmPresent] at hv
  rw [hv]
  simp

theorem insertService_facts (db : MirrorDb) (e : Nat) (kind type endpoint : String) :
    DbExtends db (db.insertService e kind type endpoint) ∧
    svcPresent (db.insertService e kind type endpoint) e kind := by
  unfold MirrorDb.insertService
  cases hc : db.services.any (fun x => decide (x.1 = e ∧ x.2.1 = kind)) with
  | true => simp only [hc, if_true]; exact ⟨dbExtends_refl db, hc⟩
  | false =>
      simp only [hc, Bool.false_eq_true, if_false]
      refine ⟨⟨⟨[], by simp⟩, ⟨[], by simp⟩, ⟨[], by simp⟩, ⟨[], by simp⟩,
        ⟨[], by simp⟩, ⟨[], by simp⟩, ⟨_, rfl⟩⟩, ?_⟩
      rw [svcPresent]
      simp

theorem insertService_noop {db : MirrorDb} {e : Nat} {kind type endpoint : String}
    (hs : svcPresent db e kind) :
    db.insertService e kind type endpoint = db := by
  unfold MirrorDb.insertService
  rw [svcPresent] at hs
  rw [hs]
  simp

/-! ## C7 groundwork: fold lemmas -/

theorem foldl_dbExtends {β : Type _} {f : MirrorDb → β → MirrorDb}
    (hf : ∀ db b, DbExtends db (f db b)) :
    ∀ (l : List β) (db : MirrorDb), DbExtends db (l.foldl f db) := by
  intro l
  induction l with
  | nil => intro db; exact dbExtends_refl db
  | cons a l ih =>
      intro db
      rw [List.foldl_cons]
      exact dbExtends_trans (hf db a) (ih (f db a))

theorem foldl_pres {β : Type _} {f : MirrorDb → β → MirrorDb} {P : MirrorDb → β → Prop}
    (hf : ∀ db b, DbExtends db (f db b))
    (hfp : ∀ db b, P (f db b) b)
    (hstable : ∀ (db db2 : MirrorDb) (b : β), P db b → DbExtends db db2 → P db2 b) :
    ∀ (l : List β) (db : MirrorDb), ∀ b ∈ l, P (l.foldl f db) b := by
  intro l
  induction l with
  | nil => intro db b hb; cases hb
  | cons a l ih =>
      intro db b hb
      rw [List.foldl_cons]
      rcases List.mem_cons.mp hb with rfl | hmem
      · exact hstable _ _ b (hfp db b) (foldl_dbExtends hf l (f db b))
      · exact ih (f db a) b hmem

theorem foldl_noop {β : Type _} {f : MirrorDb → β → MirrorDb} {l : List β} {db : MirrorDb}
    (h : ∀ b ∈ l, f db b = db) : l.foldl f db = db := by
  induction l with
  | nil => rfl
  | cons a l ih =>
      rw [List.foldl_cons, h a (List.mem_cons_self a l)]
      exact ih (fun b hb => h b (List.mem_cons_of_mem a hb))

/-! ## C7 groundwork: a processed entry is absorbed -/

theorem changeTail_facts {dbC db2 : MirrorDb} {cid idA : Nat} {createdAt : Int}
    {nst : Bool} {aka : Option (List String)} {sgn pdsv prev : Option Nat} {sig : String}
    {rot : List String} {vms : List (String × String)}
    {svcs : List (String × Service)}
    (h : (dbC.insertEntry cid idA createdAt nst "O" aka sgn pdsv prev sig >>=
          fun r3 => pure
            (List.foldl (fun db s => db.insertService r3.1 s.1 s.2.type s.2.endpoint)
              (List.foldl (fun db m => db.insertVerificationMethod r3.1 m.1 m.2)
                (r3.2.insertRotationKeysOf r3.1 rot)
                vms)
              svcs)) = .ok db2) :
    DbExtends dbC db2 ∧
    (∀ (db3 : MirrorDb) (idA2 : Nat) (sgn2 pdsv2 : Option Nat), DbExtends db2 db3 →
      (db3.insertEntry cid idA2 createdAt nst "O" aka sgn2 pdsv2 prev sig >>=
        fun r3 => pure
          (List.foldl (fun db s => db.insertService r3.1 s.1 s.2.type s.2.endpoint)
            (List.foldl (fun db m => db.insertVerificationMethod r3.1 m.1 m.2)
              (r3.2.insertRotationKeysOf r3.1 rot)
              vms)
            svcs)) = .ok db3) := by
  cases hins : dbC.insertEntry cid idA createdAt nst "O" aka sgn pdsv prev sig with
  | error s => rw [hins, except_bind_error] at h; cases h
  | ok r3 =>
      rw [hins, except_bind_ok] at h
      cases h
      obtain ⟨hxD, hfD, hprevD⟩ := insertEntry_ok_facts hins
      -- the three folds only append
      have hrotExt : ∀ (l : List (Nat × String)) (db : MirrorDb),
          DbExtends db (l.foldl (fun db ia => db.insertRotationKey r3.1 ia.1 ia.2) db) :=
        foldl_dbExtends (fun db b => (insertRotationKey_facts db r3.1 b.1 b.2).1)
      have hvmExt : ∀ (l : List (String × String)) (db : MirrorDb),
          DbExtends db (l.foldl (fun db m => db.insertVerificationMethod r3.1 m.1 m.2) db) :=
        foldl_dbExtends (fun db b => (insertVerificationMethod_facts db r3.1 b.1 b.2).1)
      have hsvcExt : ∀ (l : List (String × Service)) (db : MirrorDb),
          DbExtends db (l.foldl
            (fun db s => db.insertService r3.1 s.1 s.2.type s.2.endpoint) db) :=
        foldl_dbExtends (fun db b => (insertService_facts db r3.1 b.1 b.2.type b.2.endpoint).1)
      have hxE : DbExtends r3.2 (r3.2.insertRotationKeysOf r3.1 rot) := by
        unfold MirrorDb.insertRotationKeysOf
        exact hrotExt rot.enum r3.2
      have hxF : DbExtends (r3.2.insertRotationKeysOf r3.1 rot)
          (List.foldl (fun db m => db.insertVerificationMethod r3.1 m.1 m.2)
            (r3.2.insertRotationKeysOf r3.1 rot) vms) :=
        hvmExt vms _
      have hxG : DbExtends
          (List.foldl (fun db m => db.insertVerificationMethod r3.1 m.1 m.2)
            (r3.2.insertRotationKeysOf r3.1 rot) vms)
          (List.foldl (fun db s => db.insertService r3.1 s.1 s.2.type s.2.endpoint)
            (List.foldl (fun db m => db.insertVerificationMethod r3.1 m.1 m.2)
              (r3.2.insertRotationKeysOf r3.1 rot) vms)
            svcs) :=
        hsvcExt svcs _
      refine ⟨dbExtends_trans hxD (dbExtends_trans hxE (dbExtends_trans hxF hxG)), ?_⟩
      intro db3 idA2 sgn2 pdsv2 hx23
      have hxE3 : DbExtends (r3.2.insertRotationKeysOf r3.1 rot) db3 :=
        dbExtends_trans hxF (dbExtends_trans hxG hx23)
      have hxD3 : DbExtends r3.2 db3 := dbExtends_trans hxE hxE3
      -- presences of the satellite rows in db3
      have hrotPres : ∀ b ∈ rot.enum,
          keyPresent db3 b.2 ∧ rotPresent db3 r3.1 b.1 := by
        intro b hb
        have := @foldl_pres (Nat × String)
          (fun db ia => db.insertRotationKey r3.1 ia.1 ia.2)
          (fun db b => keyPresent db b.2 ∧ rotPresent db r3.1 b.1)
          (fun db b => (insertRotationKey_facts db r3.1 b.1 b.2).1)
          (fun db b => ⟨(insertRotationKey_facts db r3.1 b.1 b.2).2.1,
            (insertRotationKey_facts db r3.1 b.1 b.2).2.2⟩)
          (fun _ _ b hP hx => ⟨keyPresent_stable hP.1 hx, rotPresent_stable hP.2 hx⟩)
          rot.enum r3.2 b hb
        rw [MirrorDb.insertRotationKeysOf] at hxE3
        exact ⟨keyPresent_stable this.1 hxE3, rotPresent_stable this.2 hxE3⟩
      have hvmPres : ∀ b ∈ vms, keyPresent db3 b.2 ∧ vmPresent db3 r3.1 b.1 := by
        intro b hb
        have := @foldl_pres (String × String)
          (fun db m => db.insertVerificationMethod r3.1 m.1 m.2)
          (fun db b => keyPresent db b.2 ∧ vmPresent db r3.1 b.1)
          (fun db b => (insertVerificationMethod_facts db r3.1 b.1 b.2).1)
          (fun db b => ⟨(insertVerificationMethod_facts db r3.1 b.1 b.2).2.1,
            (insertVerificationMethod_facts db r3.1 b.1 b.2).2.2⟩)
          (fun _ _ b hP hx => ⟨keyPresent_stable hP.1 hx, vmPresent_stable hP.2 hx⟩)
          vms (r3.2.insertRotationKeysOf r3.1 rot) b hb
        exact ⟨keyPresent_stable this.1 (dbExtends_trans hxG hx23),
          vmPresent_stable this.2 (dbExtends_trans hxG hx23)⟩
      have hsvcPres : ∀ b ∈ svcs, svcPresent db3 r3.1 b.1 := by
        intro b hb
        have := @foldl_pres (String × Service)
          (fun db s => db.insertService r3.1 s.1 s.2.type s.2.endpoint)
          (fun db b => svcPresent db r3.1 b.1)
          (fun db b => (insertService_facts db r3.1 b.1 b.2.type b.2.endpoint).1)
          (fun db b => (insertService_facts db r3.1 b.1 b.2.type b.2.endpoint).2)
          (fun _ _ b hP hx => svcPresent_stable hP hx)
          svcs (List.foldl (fun db m => db.insertVerificationMethod r3.1 m.1 m.2)
            (r3.2.insertRotationKeysOf r3.1 rot) vms) b hb
        exact svcPresent_stable this hx23
      -- second run: the row insert is a conflict no-op
      have hfind3 : db3.findEntry cid = some r3.1 := findEntry_stable hfD hxD3
      have hprev3 : ∀ c, prev = some c → ∃ j, db3.findEntry c = some j := by
        intro c hc
        obtain ⟨j, hj⟩ := hprevD c hc
        exact ⟨j, findEntry_stable hj (dbExtends_trans hxD hxD3)⟩
      rw [insertEntry_noop hfind3 hprev3, except_bind_ok]
      have hrotNoop : (db3.insertRotationKeysOf ((r3.1, db3) : Nat × MirrorDb).1 rot) =
          db3 := by
        unfold MirrorDb.insertRotationKeysOf
        exact foldl_noop (fun b hb =>
          insertRotationKey_noop (hrotPres b hb).1 (hrotPres b hb).2)
      rw [hrotNoop,
        foldl_noop (fun b hb =>
          insertVerificationMethod_noop (hvmPres b hb).1 (hvmPres b hb).2),
        foldl_noop (fun b hb => insertService_noop (hsvcPres b hb))]
      rfl

theorem processEntry_ok_facts {db db2 : MirrorDb} {e : LogEntry}
    (h : db.processEntry e = .ok db2) :
    DbExtends db db2 ∧ (∀ db3, DbExtends db2 db3 → db3.processEntry e = .ok db3) := by
  obtain ⟨hx0, hp0⟩ := insertDid_facts db e.did
  unfold MirrorDb.processEntry at h
  cases hco : e.operation.content with
  | change d prev extra =>
      rw [hco] at h
      dsimp only at h
      rcases hvm : d.verificationMethods.find?
          (fun m => m.1 = ATPROTO_VERIFICATION_METHOD) with _ | m <;>
        rw [hvm] at h <;> dsimp only at h <;>
        (rcases hsv : d.services.find?
            (fun s => s.1 = ATPROTO_PDS_KIND ∧ s.2.type = ATPROTO_PDS_TYPE) with _ | s <;>
          rw [hsv] at h <;> dsimp only at h)
      -- (none, none)
      · obtain ⟨hxT, hnoop⟩ := changeTail_facts h
        refine ⟨dbExtends_trans hx0 hxT, ?_⟩
        intro db3 hx23
        have hdid3 : didPresent db3 e.did :=
          didPresent_stable hp0 (dbExtends_trans hxT hx23)
        unfold MirrorDb.processEntry
        rw [hco]
        dsimp only
        rw [insertDid_preserves hdid3, hvm]
        dsimp only
        rw [hsv]
        dsimp only
        exact hnoop db3 (db3.insertDid e.did).1 none none hx23
      -- (none signing, some pds)
      · have hxC := (insertAtprotoPds_facts (db.insertDid e.did).2 s.2.endpoint).1
        have hpC := (insertAtprotoPds_facts (db.insertDid e.did).2 s.2.endpoint).2
        obtain ⟨hxT, hnoop⟩ := changeTail_facts h
        refine ⟨dbExtends_trans hx0 (dbExtends_trans hxC hxT), ?_⟩
        intro db3 hx23
        have hdid3 : didPresent db3 e.did :=
          didPresent_stable hp0 (dbExtends_trans hxC (dbExtends_trans hxT hx23))
        have hpds3 : pdsPresent db3 s.2.endpoint :=
          pdsPresent_stable hpC (dbExtends_trans hxT hx23)
        unfold MirrorDb.processEntry
        rw [hco]
        dsimp only
        rw [insertDid_preserves hdid3, hvm]
        dsimp only
        rw [hsv]
        dsimp only
        rw [insertAtprotoPds_preserves hpds3]
        exact hnoop db3 (db3.insertDid e.did).1 none
          (some (db3.insertAtprotoPds s.2.endpoint).1) hx23
      -- (some signing, none pds)
      · have hxB := (insertKey_facts (db.insertDid e.did).2 m.2).1
        have hkB := (insertKey_facts (db.insertDid e.did).2 m.2).2
        obtain ⟨hxT, hnoop⟩ := changeTail_facts h
        refine ⟨dbExtends_trans hx0 (dbExtends_trans hxB hxT), ?_⟩
        intro db3 hx23
        have hdid3 : didPresent db3 e.did :=
          didPresent_stable hp0 (dbExtends_trans hxB (dbExtends_trans hxT hx23))
        have hkey3 : keyPresent db3 m.2 :=
          keyPresent_stable hkB (dbExtends_trans hxT hx23)
        unfold MirrorDb.processEntry
        rw [hco]
        dsimp only
        rw [insertDid_preserves hdid3, hvm]
        dsimp only
        rw [insertKey_preserves hkey3, hsv]
        dsimp only
        exact hnoop db3 (db3.insertDid e.did).1 (some (db3.insertKey m.2).1) none hx23
      -- (some signing, some pds)
      · have hxB := (insertKey_facts (db.insertDid e.did).2 m.2).1
        have hkB := (insertKey_facts (db.insertDid e.did).2 m.2).2
        have hxC := (insertAtprotoPds_facts
          ((db.insertDid e.did).2.insertKey m.2).2 s.2.endpoint).1
        have hpC := (insertAtprotoPds_facts
          ((db.insertDid e.did).2.insertKey m.2).2 s.2.endpoint).2
        obtain ⟨hxT, hnoop⟩ := changeTail_facts h
        refine ⟨dbExtends_trans hx0
          (dbExtends_trans hxB (dbExtends_trans hxC hxT)), ?_⟩
        intro db3 hx23
        have hdid3 : didPresent db3 e.did :=
          didPresent_stable hp0 (dbExtends_trans hxB
            (dbExtends_trans hxC (dbExtends_trans hxT hx23)))
        have hkey3 : keyPresent db3 m.2 :=
          keyPresent_stable hkB (dbExtends_trans hxC (dbExtends_trans hxT hx23))
        have hpds3 : pdsPresent db3 s.2.endpoint :=
          pdsPresent_stable hpC (dbExtends_trans hxT hx23)
        unfold MirrorDb.processEntry
        rw [hco]
        dsimp only
        rw [insertDid_preserves hdid3, hvm]
        dsimp only
        rw [insertKey_preserves hkey3, hsv]
        dsimp only
        rw [insertAtprotoPds_preserves hpds3]
        exact hnoop db3 (db3.insertDid e.did).1 (some (db3.insertKey m.2).1)
          (some (db3.insertAtprotoPds s.2.endpoint).1) hx23
  | tombstone p =>
      rw [hco] at h
      dsimp only at h
      cases hins : (db.insertDid e.did).2.insertEntry e.cid (db.insertDid e.did).1
          e.createdAt e.nullified "T" none none none (some p) e.operation.sig with
      | error s => rw [hins, except_bind_error] at h; cases h
      | ok r3 =>
          rw [hins, except_bind_ok] at h
          cases h
          obtain ⟨hxD, hfD, hprevD⟩ := insertEntry_ok_facts hins
          refine ⟨dbExtends_trans hx0 hxD, ?_⟩
          intro db3 hx23
          have hdid3 : didPresent db3 e.did :=
            didPresent_stable hp0 (dbExtends_trans hxD hx23)
          have hfind3 : db3.findEntry e.cid = some r3.1 :=
            findEntry_stable hfD hx23
          have hprev3 : ∀ c, (some p : Option Nat) = some c →
              ∃ j, db3.findEntry c = some j := by
            intro c hc
            cases hc
            obtain ⟨j, hj⟩ := hprevD p rfl
            exact ⟨j, findEntry_stable hj (dbExtends_trans hxD hx23)⟩
          unfold MirrorDb.processEntry
          rw [hco]
          dsimp only
          rw [insertDid_preserves hdid3, insertEntry_noop hfind3 hprev3,
            except_bind_ok]
          rfl
  | legacyCreate sk rk handle service =>
      rw [hco] at h
      dsimp only at h
      obtain ⟨r3, hins, hg⟩ := except_bind_pure_ok h
      obtain ⟨hxD, hfD, hprevD⟩ := insertEntry_ok_facts hins
      have hxB := (insertKey_facts (db.insertDid e.did).2 sk).1
      have hkB := (insertKey_facts (db.insertDid e.did).2 sk).2
      have hxC := (insertAtprotoPds_facts
        ((db.insertDid e.did).2.insertKey sk).2 service).1
      have hpC := (insertAtprotoPds_facts
        ((db.insertDid e.did).2.insertKey sk).2 service).2
      have hE0 := insertRotationKey_facts r3.2 r3.1 0 rk
      have hE1 := insertRotationKey_facts (r3.2.insertRotationKey r3.1 0 rk) r3.1 1 sk
      subst hg
      refine ⟨dbExtends_trans hx0 (dbExtends_trans hxB (dbExtends_trans hxC
        (dbExtends_trans hxD (dbExtends_trans hE0.1 hE1.1)))), ?_⟩
      intro db3 hx23
      have hxE3 : DbExtends (r3.2.insertRotationKey r3.1 0 rk) db3 :=
        dbExtends_trans hE1.1 hx23
      have hxD3 : DbExtends r3.2 db3 := dbExtends_trans hE0.1 hxE3
      have hxC3 : DbExtends
          (((db.insertDid e.did).2.insertKey sk).2.insertAtprotoPds service).2 db3 :=
        dbExtends_trans hxD hxD3
      have hdid3 : didPresent db3 e.did :=
        didPresent_stable hp0 (dbExtends_trans hxB (dbExtends_trans hxC hxC3))
      have hsk3 : keyPresent db3 sk :=
        keyPresent_stable hkB (dbExtends_trans hxC hxC3)
      have hpds3 : pdsPresent db3 service := pdsPresent_stable hpC hxC3
      have hfind3 : db3.findEntry e.cid = some r3.1 := findEntry_stable hfD hxD3
      have hkrk3 : keyPresent db3 rk := keyPresent_stable hE0.2.1 hxE3
      have hrot03 : rotPresent db3 r3.1 0 := rotPresent_stable hE0.2.2 hxE3
      have hksk3 : keyPresent db3 sk := hsk3
      have hrot13 : rotPresent db3 r3.1 1 := rotPresent_stable hE1.2.2 hx23
      unfold MirrorDb.processEntry
      rw [hco]
      dsimp only
      rw [insertDid_preserves hdid3, insertKey_preserves hsk3,
        insertAtprotoPds_preserves hpds3,
        insertEntry_noop hfind3 (fun c hc => by cases hc), except_bind_ok]
      dsimp only
      rw [insertRotationKey_noop hkrk3 hrot03, insertRotationKey_noop hksk3 hrot13]
      rfl

/-! ## C7: importing the same batch twice is idempotent -/

theorem importEntries_nil (db : MirrorDb) : db.importEntries [] = .ok (db, none) := rfl

theorem importEntries_cons (db : MirrorDb) (e : LogEntry) (rest : List LogEntry) :
    db.importEntries (e :: rest) =
      (db.processEntry e >>= fun db1 =>
        (db1.importEntries rest >>= fun r =>
          pure (r.1, some (r.2.getD e.createdAt)))) := rfl

theorem importEntries_extends : ∀ {es : List LogEntry} {db db2 : MirrorDb}
    {v : Option Int}, db.importEntries es = .ok (db2, v) → DbExtends db db2 := by
  intro es
  induction es with
  | nil =>
      intro db db2 v h
      rw [importEntries_nil] at h
      cases h
      exact dbExtends_refl db
  | cons e rest ih =>
      intro db db2 v h
      rw [importEntries_cons] at h
      cases hp : db.processEntry e with
      | error s => rw [hp, except_bind_error] at h; cases h
      | ok db1 =>
          rw [hp, except_bind_ok] at h
          obtain ⟨r, hr, hgr⟩ := except_bind_pure_ok h
          cases hgr
          exact dbExtends_trans (processEntry_ok_facts hp).1 (ih hr)

theorem importEntries_twice : ∀ {es : List LogEntry} {db db2 : MirrorDb}
    {v : Option Int}, db.importEntries es = .ok (db2, v) →
    db2.importEntries es = .ok (db2, v) := by
  intro es
  induction es with
  | nil =>
      intro db db2 v h
      rw [importEntries_nil] at h
      cases h
      exact importEntries_nil db
  | cons e rest ih =>
      intro db db2 v h
      rw [importEntries_cons] at h
      cases hp : db.processEntry e with
      | error s => rw [hp, except_bind_error] at h; cases h
      | ok db1 =>
          rw [hp, except_bind_ok] at h
          obtain ⟨r, hr, hgr⟩ := except_bind_pure_ok h
          cases hgr
          have hnoop : (r.1).processEntry e = .ok r.1 :=
            (processEntry_ok_facts hp).2 r.1 (importEntries_extends hr)
          rw [importEntries_cons, hnoop, except_bind_ok, ih hr, except_bind_ok]
          rfl

/-- C7: importing the same batch of log entries into the mirror store a
second time is idempotent: the second import succeeds, leaves every
table's row set unchanged (identity, key, atproto_pds, plc_log,
rotation_keys, verification_methods, services gain no rows), returns
the same resume timestamp, and `get_last_created` is unchanged. -/
theorem import_idempotent (db : MirrorDb) (es : List LogEntry) (db2 : MirrorDb)
    (v : Option Int) (h : db.importEntries es = .ok (db2, v)) :
    db2.importEntries es = .ok (db2, v) ∧
    (∀ (db3 : MirrorDb) (v3 : Option Int), db2.importEntries es = .ok (db3, v3) →
      db3.identity = db2.identity ∧ db3.key = db2.key ∧
      db3.atprotoPds = db2.atprotoPds ∧ db3.plcLog = db2.plcLog ∧
      db3.rotationKeys = db2.rotationKeys ∧
      db3.verificationMethods = db2.verificationMethods ∧
      db3.services = db2.services ∧ v3 = v ∧
      db3.getLastCreated = db2.getLastCreated) := by
  have h2 := importEntries_twice h
  refine ⟨h2, ?_⟩
  intro db3 v3 h3
  rw [h2] at h3
  cases h3
  exact ⟨rfl, rfl, rfl, rfl, rfl, rfl, rfl, rfl, rfl⟩

/-- Witness for C7: re-importing the sample batch into the store it
produced returns the same store and the same resume timestamp. -/
theorem import_idempotent_witness :
    dbW.importEntries [gW, aW, tW, lW] = .ok (dbW, some 3) :=
  (import_idempotent MirrorDb.empty [gW, aW, tW, lW] dbW (some 3) (by decide)).1

end Plc
